import Mathlib

/-!
Shallow embedding of the hybrid pursuit engine of
`src/ia/smart_chase_algorithm.py` (class `AlgoritmoPersecucionInteligente`),
together with proofs settling the frozen claims about it.

Modelling conventions:
* Python numbers (ints and floats) are embedded as exact rationals `ℚ`;
  pixel fields of obstacles are integers `ℤ`, exactly as produced by
  `ObstaculoFuturista.__init__`.
* `pygame.Rect` with integer fields keeps pygame's collision semantics:
  right/bottom edges are exclusive.
* The global `random` source is an explicit stream of naturals threaded
  through every function that draws from it; `random.randint` with an empty
  range raises `ValueError`, embedded as `Except.error`.
* `math.sqrt` values that the program compares (A* priorities of the shape
  `c + 0.7·√s`, fitness values of the shape `base − √d`) are kept symbolic
  as pairs and compared exactly with a nested-squaring decision procedure,
  so the whole search pipeline stays executable.  Only the potential-field
  navigator, whose force vector genuinely mixes several square roots, is
  embedded over `ℝ`.
-/

namespace SmartChase

/-- Read-only positional snapshot of an agent (the engine reads only `x`, `y`). -/
structure Pt where
  x : ℚ
  y : ℚ
deriving DecidableEq

/-- An obstacle: axis-aligned rectangle with integer pixel fields, as stored by
`ObstaculoFuturista.__init__` (which also caches `self.rect = pygame.Rect(x, y, ancho, alto)`). -/
structure Obstaculo where
  x : ℤ
  y : ℤ
  ancho : ℤ
  alto : ℤ
deriving DecidableEq

/-- `pygame.Rect`: an integer rectangle. -/
structure Rect where
  x : ℤ
  y : ℤ
  w : ℤ
  h : ℤ
deriving DecidableEq

/-- The cached `self.rect` of an obstacle. -/
def Obstaculo.rect (o : Obstaculo) : Rect := ⟨o.x, o.y, o.ancho, o.alto⟩

/-- `pygame.Rect.colliderect`: overlap test; touching edges do not collide
(right/bottom edges are exclusive). -/
def Rect.colliderect (a b : Rect) : Bool :=
  decide (a.x < b.x + b.w) && decide (b.x < a.x + a.w) &&
  decide (a.y < b.y + b.h) && decide (b.y < a.y + a.h)

/-- `pygame.Rect.collidepoint`: left/top edges inclusive, right/bottom exclusive. -/
def Rect.collidepoint (r : Rect) (px py : ℤ) : Bool :=
  decide (r.x ≤ px) && decide (px < r.x + r.w) &&
  decide (r.y ≤ py) && decide (py < r.y + r.h)

/-- Python `int(...)` on a real number: truncation toward zero. -/
def pyInt (q : ℚ) : ℤ := if 0 ≤ q then ⌊q⌋ else ⌈q⌉

/-- Constructor configuration of `AlgoritmoPersecucionInteligente.__init__`:
map size in pixels and grid cell size (default 15). -/
structure Cfg where
  ancho_mapa : ℕ
  alto_mapa : ℕ
  cell_size : ℕ
deriving DecidableEq

/-- `self.cols = ancho_mapa // cell_size`. -/
def Cfg.cols (c : Cfg) : ℕ := c.ancho_mapa / c.cell_size

/-- `self.rows = alto_mapa // cell_size`. -/
def Cfg.rows (c : Cfg) : ℕ := c.alto_mapa / c.cell_size

/-- A grid cell `(row, col)`. -/
abbrev Cell := ℤ × ℤ

/-- `_pos_a_grid`: world position to cell, `(int(y // cell_size), int(x // cell_size))`
(Python `//` on numbers is floor division). -/
def pos_a_grid (c : Cfg) (x y : ℚ) : Cell :=
  (⌊y / (c.cell_size : ℚ)⌋, ⌊x / (c.cell_size : ℚ)⌋)

/-- `_grid_a_pos`: cell `(i, j)` to the pixel center
`(j*cell_size + cell_size//2, i*cell_size + cell_size//2)`. -/
def grid_a_pos (c : Cfg) (i j : ℤ) : ℤ × ℤ :=
  (j * (c.cell_size : ℤ) + ((c.cell_size / 2 : ℕ) : ℤ),
   i * (c.cell_size : ℤ) + ((c.cell_size / 2 : ℕ) : ℤ))

/-- Occupancy grid: `0` free, `1` blocked, `rows × cols`. -/
abbrev Grid := List (List ℕ)

/-- `grid[i][j]` (meaningful only after the source's own bounds checks). -/
def gridAt (grid : Grid) (i j : ℤ) : ℕ := (grid.getD i.toNat []).getD j.toNat 0

/-- One pass of `_crear_grid_mejorado`'s `for i in range(rows): for j in
range(cols)` loop for a single inflated rectangle: every cell whose center
`collidepoint`s the rectangle is set to 1, the rest keep their value. -/
def marcarRect (c : Cfg) (rect_inflado : Rect) (grid : Grid) : Grid :=
  (List.range c.rows).map fun (i : ℕ) =>
    (List.range c.cols).map fun (j : ℕ) =>
      let p := grid_a_pos c ((i : ℕ) : ℤ) ((j : ℕ) : ℤ)
      if rect_inflado.collidepoint p.1 p.2 then 1
      else gridAt grid ((i : ℕ) : ℤ) ((j : ℕ) : ℤ)

/-- `_crear_grid_mejorado(obstaculos, margen_inflacion=15)`: a fresh
`rows × cols` grid of zeros; for every obstacle, its rectangle inflated by the
margin on all sides marks the cells whose centers it contains. -/
def crear_grid_mejorado (c : Cfg) (obstaculos : List Obstaculo)
    (margen_inflacion : ℤ := 15) : Grid :=
  let grid0 : Grid := List.replicate c.rows (List.replicate c.cols 0)
  obstaculos.foldl
    (fun grid o =>
      let rect_inflado : Rect :=
        ⟨o.x - margen_inflacion, o.y - margen_inflacion,
         o.ancho + 2 * margen_inflacion, o.alto + 2 * margen_inflacion⟩
      marcarRect c rect_inflado grid)
    grid0

/-- `_hay_obstaculo_directo`: discrete raycast from pursuer to target.
`steps = int(max(|Δx|, |Δy|) // cell_size)`; zero steps report "clear";
otherwise each sampled point becomes a 2×2 `pygame.Rect` tested with
`colliderect` against every obstacle. -/
def hay_obstaculo_directo (c : Cfg) (enemigo jugador : Pt)
    (obstaculos : List Obstaculo) : Bool :=
  let steps : ℤ := ⌊max |enemigo.x - jugador.x| |enemigo.y - jugador.y| / (c.cell_size : ℚ)⌋
  if steps = 0 then false
  else
    (List.range steps.toNat).any fun k =>
      let i : ℚ := (k : ℚ) + 1
      let t : ℚ := i / (steps : ℚ)
      let x_inter : ℚ := enemigo.x + (jugador.x - enemigo.x) * t
      let y_inter : ℚ := enemigo.y + (jugador.y - enemigo.y) * t
      let punto : Rect := ⟨pyInt x_inter, pyInt y_inter, 2, 2⟩
      obstaculos.any fun obs => punto.colliderect obs.rect

/-- `_actualizar_historial_jugador`: append to the `deque(maxlen=10)`,
evicting the oldest entry when full. -/
def actualizar_historial_jugador (hist : List (ℚ × ℚ)) (jugador : Pt) : List (ℚ × ℚ) :=
  if hist.length < 10 then hist ++ [(jugador.x, jugador.y)]
  else hist.tail ++ [(jugador.x, jugador.y)]

/-- Python's `max(0, min(v, hi))`-style clamp used by the predictor. -/
def clampQ (lo v hi : ℚ) : ℚ := max lo (min v hi)

/-- `_predecir_posicion_jugador`: with fewer than 3 samples the last known
position (or the origin); otherwise the recency-weighted average step velocity
is projected 1..5 steps ahead, each projection clamped to the map, and the
third projection (index 2, i.e. 3 steps ahead) is returned. -/
def predecir_posicion_jugador (c : Cfg) (hist : List (ℚ × ℚ)) : ℚ × ℚ :=
  if hist.length < 3 then hist.getLast?.getD (0, 0)
  else
    let velocidades : List (ℚ × ℚ) :=
      (hist.zip hist.tail).map fun pc => (pc.2.1 - pc.1.1, pc.2.2 - pc.1.2)
    let sum_weights : ℚ :=
      (((List.range velocidades.length).map fun k => ((k : ℚ) + 1)).sum)
    let vx_pred : ℚ :=
      (((velocidades.zip (List.range velocidades.length)).map
        fun vi => vi.1.1 * ((vi.2 : ℚ) + 1)).sum) / sum_weights
    let vy_pred : ℚ :=
      (((velocidades.zip (List.range velocidades.length)).map
        fun vi => vi.1.2 * ((vi.2 : ℚ) + 1)).sum) / sum_weights
    let pos_actual := hist.getLast?.getD (0, 0)
    let predicciones : List (ℚ × ℚ) :=
      (List.range 5).map fun k =>
        let t : ℚ := (k : ℚ) + 1
        (clampQ 0 (pos_actual.1 + vx_pred * t) (c.ancho_mapa : ℚ),
         clampQ 0 (pos_actual.2 + vy_pred * t) (c.alto_mapa : ℚ))
    if 2 < predicciones.length then predicciones.getD 2 (0, 0)
    else predicciones.getD 0 (0, 0)

/-- Decides `a + √x ≤ b + √y` for rationals `a b` and nonnegative radicands
`x y`, by case analysis on the sign of `b - a` and (at most) two squarings. -/
def sqrtAddLe (a x b y : ℚ) : Bool :=
  let c := b - a
  if 0 ≤ c then
    let L := x - y - c ^ 2
    if L ≤ 0 then true else decide (L ^ 2 ≤ 4 * y * c ^ 2)
  else
    let L := x + c ^ 2 - y
    if 0 < L then false else decide (4 * x * c ^ 2 ≤ L ^ 2)

/-- A fitness value as the program computes it: the real number
`base − √dsq`.  The clamp `max(0, 200 − dist)` of `_evaluar_poblacion` is
resolved at construction time (exactly, via `dist ≥ 200 ↔ dsq ≥ 40000`),
so every fitness the program ever compares has this shape. -/
structure Fit where
  base : ℚ
  dsq : ℚ
deriving DecidableEq

instance : Inhabited Fit := ⟨⟨0, 0⟩⟩

/-- Exact order test on fitness values:
`f ≤ g ↔ f.base + √g.dsq ≤ g.base + √f.dsq`. -/
def Fit.le (f g : Fit) : Bool := sqrtAddLe f.base g.dsq g.base f.dsq

/-- Strict order test (`not (g ≤ f)`), used for Python's `>` on fitness keys. -/
def Fit.lt (f g : Fit) : Bool := !(Fit.le g f)

/-- The real number a `Fit` stands for. -/
noncomputable def Fit.toReal (f : Fit) : ℝ := (f.base : ℝ) - Real.sqrt (f.dsq : ℝ)

/-- The shared global `random` source: an arbitrary infinite stream of
naturals plus a cursor. -/
structure Rng where
  stream : ℕ → ℕ
  idx : ℕ

/-- Draw the next raw natural from the stream. -/
def Rng.next (r : Rng) : ℕ × Rng := (r.stream r.idx, ⟨r.stream, r.idx + 1⟩)

/-- Message of the `ValueError` raised by `random.randint` on an empty range. -/
def emptyRangeMsg : String := "empty range for randrange"

/-- `random.randint(lo, hi)`: any value in `[lo, hi]`, determined by the
stream; raises `ValueError` when `hi < lo`. -/
def randint (lo hi : ℤ) (r : Rng) : Except String (ℤ × Rng) :=
  if hi < lo then .error emptyRangeMsg
  else
    let (n, r') := r.next
    .ok (lo + (n : ℤ) % (hi - lo + 1), r')

/-- `random.random()`: a rational in `[0, 1)` drawn from the stream
(resolution 1/1000, enough to realize every comparison the source makes). -/
def randomUnit (r : Rng) : ℚ × Rng :=
  let (n, r') := r.next
  (((n % 1000 : ℕ) : ℚ) / 1000, r')

/-- `random.choice` on a non-empty list (call sites use `[-1, 0, 1]`). -/
def choiceInt (l : List ℤ) (r : Rng) : ℤ × Rng :=
  let (n, r') := r.next
  (l.getD (n % l.length) 0, r')

/-- One candidate route of the genetic population. -/
structure Individuo where
  path : List Cell
  fitness : Fit
deriving DecidableEq

instance : Inhabited Individuo := ⟨⟨[], ⟨0, 0⟩⟩⟩

/-- Mutable engine state: the player-history deque and the persistent
genetic population. -/
structure EngState where
  historial_jugador : List (ℚ × ℚ)
  poblacion_rutas : List Individuo

/-- `random.sample(l, k)` for `k ≤ |l|`: repeatedly draw an index into the
remaining list and remove the drawn element. -/
def sampleAux (d : Individuo) : ℕ → List Individuo → Rng → List Individuo × Rng
  | 0, _, r => ([], r)
  | _ + 1, [], r => ([], r)
  | k + 1, x :: xs, r =>
    let l := x :: xs
    let (n, r') := r.next
    let j := n % l.length
    let e := l.getD j d
    let (rest, r'') := sampleAux d k (l.eraseIdx j) r'
    (e :: rest, r'')

/-- `random.sample(poblacion, k)`. -/
def sample (l : List Individuo) (k : ℕ) (r : Rng) : List Individuo × Rng :=
  sampleAux default k l r

/-- One iteration of `_generar_ruta_aleatoria`'s walk loop on the state
`((ruta, pos_actual, done), rng)`; `done` models Python's `break` (once the
goal is reached, later loop iterations draw nothing and change nothing). -/
def rutaPaso (c : Cfg) (goal : Cell) (st : (List Cell × Cell × Bool) × Rng) :
    (List Cell × Cell × Bool) × Rng :=
  let ruta := st.1.1
  let pos_actual := st.1.2.1
  let done := st.1.2.2
  let r := st.2
  if done then st
  else if pos_actual = goal then ((ruta, pos_actual, true), r)
  else
    let ur := randomUnit r
    let dr :=
      if ur.1 < 7/10 then
        let dx : ℤ :=
          if goal.2 > pos_actual.2 then 1
          else if goal.2 < pos_actual.2 then -1 else 0
        let dy : ℤ :=
          if goal.1 > pos_actual.1 then 1
          else if goal.1 < pos_actual.1 then -1 else 0
        ((dx, dy), ur.2)
      else
        let dxr := choiceInt [-1, 0, 1] ur.2
        let dyr := choiceInt [-1, 0, 1] dxr.2
        ((dxr.1, dyr.1), dyr.2)
    let nueva_pos : Cell := (pos_actual.1 + dr.1.2, pos_actual.2 + dr.1.1)
    if 0 ≤ nueva_pos.1 ∧ nueva_pos.1 < (c.rows : ℤ) ∧
       0 ≤ nueva_pos.2 ∧ nueva_pos.2 < (c.cols : ℤ) then
      ((ruta ++ [nueva_pos], nueva_pos, false), dr.2)
    else ((ruta, pos_actual, false), dr.2)

/-- `_generar_ruta_aleatoria(start, goal, max_pasos=15)`: a biased random walk
of at most `max_pasos` steps. -/
def generar_ruta_aleatoria (c : Cfg) (start goal : Cell) (r : Rng)
    (max_pasos : ℕ := 15) : List Cell × Rng :=
  let res :=
    (List.range max_pasos).foldl (fun st _ => rutaPaso c goal st) (([start], start, false), r)
  (res.1.1, res.2)

/-- One iteration of the population-seeding loop: generate a biased random
route and append it (fitness 0). -/
def individuoNuevo (c : Cfg) (start goal : Cell) (st : List Individuo × Rng) :
    List Individuo × Rng :=
  let p := generar_ruta_aleatoria c start goal st.2
  (st.1 ++ [{ path := p.1, fitness := ⟨0, 0⟩ }], p.2)

/-- `_inicializar_poblacion_genetica(enemigo, jugador, tamaño_poblacion=20)`. -/
def inicializar_poblacion_genetica (c : Cfg) (enemigo jugador : Pt) (r : Rng)
    (tam_poblacion : ℕ := 20) : List Individuo × Rng :=
  let start := pos_a_grid c enemigo.x enemigo.y
  let goal := pos_a_grid c jugador.x jugador.y
  (List.range tam_poblacion).foldl (fun st _ => individuoNuevo c start goal st) ([], r)

/-- Direction changes along a route: the count of indices `i ≥ 2` with
`ruta[i-1] − ruta[i-2] ≠ ruta[i] − ruta[i-1]` (0 when the route has ≤ 2 cells). -/
def cambiosDireccion : List Cell → ℕ
  | a :: b :: cc :: rest =>
    (if (b.1 - a.1, b.2 - a.2) ≠ (cc.1 - b.1, cc.2 - b.2) then 1 else 0) +
      cambiosDireccion (b :: cc :: rest)
  | _ => 0

/-- Cells of a route that land on a blocked, in-bounds grid cell
(counted with multiplicity, as the source's `for pos in ruta` loop does). -/
def colisionesRuta (c : Cfg) (grid : Grid) (ruta : List Cell) : ℕ :=
  (ruta.filter fun pos =>
    decide (0 ≤ pos.1) && decide (pos.1 < (c.rows : ℤ)) &&
    decide (0 ≤ pos.2) && decide (pos.2 < (c.cols : ℤ)) &&
    decide (gridAt grid pos.1 pos.2 = 1)).length

/-- Fitness of one route (body of `_evaluar_poblacion`'s per-individual loop):
empty routes get −1000; otherwise
`−2·len + max(0, 200 − dist(final cell center, jugador)) − 50·colisiones − 5·cambios`.
The distance term is kept symbolic: if the squared distance is ≥ 40000 the
clamp yields 0 and the value is the rational `base`; otherwise the value is
`(base + 200) − √dsq`. -/
def fitness_ruta (c : Cfg) (grid : Grid) (jugador : Pt) (ruta : List Cell) : Fit :=
  if ruta.isEmpty then ⟨-1000, 0⟩
  else
    let pos_final := ruta.getLast?.getD (0, 0)
    let pr := grid_a_pos c pos_final.1 pos_final.2
    let dist_sq : ℚ := ((pr.1 : ℚ) - jugador.x) ^ 2 + ((pr.2 : ℚ) - jugador.y) ^ 2
    let base : ℚ := -(2 * (ruta.length : ℚ))
      - 50 * (colisionesRuta c grid ruta : ℚ)
      - 5 * (cambiosDireccion ruta : ℚ)
    if 40000 ≤ dist_sq then ⟨base, 0⟩ else ⟨base + 200, dist_sq⟩

/-- `_evaluar_poblacion`: rebuild the navigation grid and score every individual. -/
def evaluar_poblacion (c : Cfg) (enemigo jugador : Pt) (obstaculos : List Obstaculo)
    (pobl : List Individuo) : List Individuo :=
  let _ := enemigo
  let grid := crear_grid_mejorado c obstaculos
  pobl.map fun ind => { ind with fitness := fitness_ruta c grid jugador ind.path }

/-- Stable insertion (descending by fitness): embeds Python's stable
`list.sort(key=fitness, reverse=True)`. -/
def insertDesc (x : Individuo) : List Individuo → List Individuo
  | [] => [x]
  | y :: ys => if Fit.lt y.fitness x.fitness then x :: y :: ys else y :: insertDesc x ys

/-- Stable descending sort by fitness. -/
def sortDesc (l : List Individuo) : List Individuo :=
  l.foldl (fun acc x => insertDesc x acc) []

/-- Python `max(candidatos, key=fitness)`: the first element of maximal fitness. -/
def maxByFitness : List Individuo → Individuo
  | [] => default
  | x :: xs => xs.foldl (fun best y => if Fit.lt best.fitness y.fitness then y else best) x

/-- `_seleccion_torneo(tamaño_torneo=3)`: sample `min(3, |poblacion|)`
individuals, keep the fittest. -/
def seleccion_torneo (pobl : List Individuo) (r : Rng)
    (tam_torneo : ℕ := 3) : Individuo × Rng :=
  let (candidatos, r') := sample pobl (min tam_torneo pobl.length) r
  (maxByFitness candidatos, r')

/-- `_cruce`: single-point crossover.  With both parents non-empty the cut
index is `random.randint(1, min(len₁, len₂) − 1)` — an empty range (hence a
`ValueError`) whenever the shorter parent has exactly one cell. -/
def cruce (padre1 padre2 : Individuo) (r : Rng) : Except String (Individuo × Rng) :=
  if padre1.path.isEmpty ∨ padre2.path.isEmpty then
    .ok ({ path := [], fitness := ⟨0, 0⟩ }, r)
  else
    (randint 1 ((min padre1.path.length padre2.path.length : ℤ) - 1) r).bind fun pr =>
      .ok ({ path := padre1.path.take pr.1.toNat ++ padre2.path.drop pr.1.toNat,
             fitness := ⟨0, 0⟩ }, pr.2)

/-- The `while len(nueva_poblacion) < len(poblacion)` reproduction loop;
each pass appends one tournament-bred child.  `fuel` bounds the iterations
(`|poblacion|` always suffices, since the new population starts at
`min(5, |poblacion|)` and grows by one per pass). -/
def reproduccionLoop (pobl : List Individuo) :
    ℕ → List Individuo → Rng → Except String (List Individuo × Rng)
  | 0, nueva, r => .ok (nueva, r)
  | fuel + 1, nueva, r =>
    if nueva.length < pobl.length then
      let p1r := seleccion_torneo pobl r
      let p2r := seleccion_torneo pobl p1r.2
      (cruce p1r.1 p2r.1 p2r.2).bind fun hr =>
        reproduccionLoop pobl fuel (nueva ++ [hr.1]) hr.2
    else .ok (nueva, r)

/-- `_seleccion_y_reproduccion`: sort descending by fitness, keep the top 5
(elitism), refill to the previous size with crossover children. -/
def seleccion_y_reproduccion (pobl : List Individuo) (r : Rng) :
    Except String (List Individuo × Rng) :=
  let sorted := sortDesc pobl
  let nueva := sorted.take 5
  reproduccionLoop sorted pobl.length nueva r

/-- `_mutacion(tasa_mutacion=0.1)` over the population list.  Note that
`random.random()` is drawn for every individual (Python evaluates it before
the short-circuit `and`). -/
def mutacionLoop (c : Cfg) (tasa : ℚ) :
    List Individuo → Rng → Except String (List Individuo × Rng)
  | [], r => .ok ([], r)
  | ind :: rest, r =>
    let ur := randomUnit r
    (if ur.1 < tasa ∧ ¬ind.path.isEmpty then
      (randint 0 ((ind.path.length : ℤ) - 1) ur.2).bind fun ira =>
        let pos_actual := ind.path.getD ira.1.toNat (0, 0)
        let dxr := choiceInt [-1, 0, 1] ira.2
        let dyr := choiceInt [-1, 0, 1] dxr.2
        let nueva_pos : Cell := (pos_actual.1 + dyr.1, pos_actual.2 + dxr.1)
        if 0 ≤ nueva_pos.1 ∧ nueva_pos.1 < (c.rows : ℤ) ∧
           0 ≤ nueva_pos.2 ∧ nueva_pos.2 < (c.cols : ℤ) then
          .ok ({ ind with path := ind.path.set ira.1.toNat nueva_pos }, dyr.2)
        else .ok (ind, dyr.2)
    else .ok (ind, ur.2)).bind fun ir =>
      (mutacionLoop c tasa rest ir.2).bind fun rr =>
        .ok (ir.1 :: rr.1, rr.2)

/-- `_mutacion` entry point. -/
def mutacion (c : Cfg) (pobl : List Individuo) (r : Rng) (tasa : ℚ := 1/10) :
    Except String (List Individuo × Rng) :=
  mutacionLoop c tasa pobl r

/-- The 9-entry action table shared by `_fuerza_a_accion` and `_path_a_accion`:
eight compass directions `(dx, dy)` and `(0,0)` for Hold. -/
def movimientos : List (ℤ × ℤ) :=
  [(0, -1), (1, -1), (1, 0), (1, 1), (0, 1), (-1, 1), (-1, 0), (-1, -1), (0, 0)]

/-- `movimientos.index(d)` with the source's `except ValueError: return 8`. -/
def indexMovimiento (d : ℤ × ℤ) : ℕ :=
  if movimientos.contains d then movimientos.indexOf d else 8

/-- `_path_a_accion`: direction from `start` to the second cell of the path,
clamped to `{-1,0,1}` per axis and looked up as `(dj, di)`; short paths yield
Hold (8). -/
def path_a_accion (path : List Cell) (start : Cell) : ℕ :=
  if path.length < 2 then 8
  else
    let next_pos := path.getD 1 (0, 0)
    let di := max (-1) (min 1 (next_pos.1 - start.1))
    let dj := max (-1) (min 1 (next_pos.2 - start.2))
    indexMovimiento (dj, di)

/-- An A* priority `(cpart, s)` standing for the real `cpart + 0.7·√s`
(`cpart = g-cost + 0.3·Manhattan`, `s` = squared Euclidean goal distance in
cells).  Compared exactly: `0.7·√s = √(49·s/100)`. -/
abbrev Prio := ℚ × ℕ

/-- Exact `≤` on priorities. -/
def Prio.le (p q : Prio) : Bool :=
  sqrtAddLe p.1 (49 * (p.2 : ℚ) / 100) q.1 (49 * (q.2 : ℚ) / 100)

/-- Lexicographic `≤` on cells, Python tuple order. -/
def cellLe (a b : Cell) : Bool :=
  decide (a.1 < b.1) || (decide (a.1 = b.1) && decide (a.2 ≤ b.2))

/-- A heap entry `(priority, cell)`. -/
abbrev Entry := Prio × Cell

/-- Python tuple order on heap entries. -/
def Entry.le (a b : Entry) : Bool :=
  if Prio.le a.1 b.1 && Prio.le b.1 a.1 then cellLe a.2 b.2 else Prio.le a.1 b.1

/-- `heapq.heappush`: the frontier is kept sorted by the tuple order, so the
head is always the exact minimum `heapq.heappop` would return. -/
def heapPush : List Entry → Entry → List Entry
  | [], e => [e]
  | x :: xs, e => if Entry.le e x then e :: x :: xs else x :: heapPush xs e

/-- Python `dict` lookup on an association list with unique keys. -/
def dictGet {α : Type} (l : List (Cell × α)) (k : Cell) : Option α :=
  (l.find? fun p => decide (p.1 = k)).map (·.2)

/-- Python `dict` store: overwrite the binding if the key exists, else append. -/
def dictInsert {α : Type} : List (Cell × α) → Cell → α → List (Cell × α)
  | [], k, v => [(k, v)]
  | p :: rest, k, v => if p.1 = k then (k, v) :: rest else p :: dictInsert rest k v

/-- The A* loop state: priority frontier, predecessor map, g-cost map. -/
structure AStarSt where
  heap : List Entry
  came_from : List (Cell × Option Cell)
  cost_so_far : List (Cell × ℚ)

/-- The source's in-bounds-and-free test `0 ≤ i < rows ∧ 0 ≤ j < cols ∧ grid[i][j] == 0`. -/
def gridFree (c : Cfg) (grid : Grid) (p : Cell) : Bool :=
  decide (0 ≤ p.1) && decide (p.1 < (c.rows : ℤ)) &&
  decide (0 ≤ p.2) && decide (p.2 < (c.cols : ℤ)) &&
  decide (gridAt grid p.1 p.2 = 0)

/-- The neighbour enumeration order of the two nested `for di/dj` loops,
with `(0,0)` skipped. -/
def dirs8 : List (ℤ × ℤ) :=
  [(-1, -1), (-1, 0), (-1, 1), (0, -1), (0, 1), (1, -1), (1, 0), (1, 1)]

/-- The move cost of stepping from `current` by offset `d`: 1 orthogonal,
1.414 diagonal, plus 0.1 when the step direction differs from the direction
that reached `current`. -/
def costoMovimiento (cameFrom : List (Cell × Option Cell)) (current : Cell)
    (d : ℤ × ℤ) : ℚ :=
  let move_cost0 : ℚ := if d.1 ≠ 0 ∧ d.2 ≠ 0 then 1414/1000 else 1
  match dictGet cameFrom current with
  | some (some prev) =>
    if (current.1 - prev.1, current.2 - prev.2) ≠ d then move_cost0 + 1/10
    else move_cost0
  | _ => move_cost0

/-- Processing of one neighbour offset inside the A* loop: bounds/occupancy
check, move cost, relax-and-push with priority
`new_cost + 0.7·Euclid + 0.3·Manhattan`. -/
def expandVecino (c : Cfg) (grid : Grid) (goal current : Cell)
    (st : AStarSt) (d : ℤ × ℤ) : AStarSt :=
  let neighbor : Cell := (current.1 + d.1, current.2 + d.2)
  if gridFree c grid neighbor then
    let new_cost : ℚ :=
      (dictGet st.cost_so_far current).getD 0 + costoMovimiento st.came_from current d
    let mejora : Bool :=
      match dictGet st.cost_so_far neighbor with
      | none => true
      | some cn => decide (new_cost < cn)
    if mejora then
      let s : ℕ := ((goal.1 - neighbor.1) ^ 2 + (goal.2 - neighbor.2) ^ 2).toNat
      let h_manhattan : ℚ :=
        (((goal.1 - neighbor.1).natAbs + (goal.2 - neighbor.2).natAbs : ℕ) : ℚ)
      { heap := heapPush st.heap ((new_cost + 3/10 * h_manhattan, s), neighbor),
        came_from := dictInsert st.came_from neighbor (some current),
        cost_so_far := dictInsert st.cost_so_far neighbor new_cost }
    else st
  else st

/-- The main A* loop: pop the minimum entry, stop on the goal, otherwise relax
the 8 neighbours.  `fuel` is a structural bound; the claims proved below hold
for every fuel value, and `astarFuel` below is generous enough for every
terminating run the witnesses evaluate. -/
def astarLoop (c : Cfg) (grid : Grid) (goal : Cell) :
    ℕ → AStarSt → List (Cell × Option Cell)
  | 0, st => st.came_from
  | fuel + 1, st =>
    match st.heap with
    | [] => st.came_from
    | e :: rest =>
      if e.2 = goal then st.came_from
      else
        astarLoop c grid goal fuel
          (dirs8.foldl (expandVecino c grid goal e.2)
            { st with heap := rest })

/-- Loop bound: every pop was pushed, and every push strictly lowers some
cell's g-cost, all g-costs being multiples of 1/1000 bounded by the cell count
times the maximal step cost. -/
def astarFuel (c : Cfg) : ℕ := 4000 * (c.rows * c.cols + 1) ^ 2 + 1

/-- Path reconstruction: follow predecessors from the goal, prepending as we
go (this accumulator form is the source's append-then-reverse).  `fuel` is a
structural bound; `came_from.length` steps always suffice because predecessor
g-costs strictly decrease. -/
def reconstruct (cf : List (Cell × Option Cell)) :
    ℕ → Cell → List Cell → List Cell
  | 0, node, acc => node :: acc
  | fuel + 1, node, acc =>
    match dictGet cf node with
    | some (some prev) => reconstruct cf fuel prev (node :: acc)
    | _ => node :: acc

/-- `_a_star_con_heuristica_mejorada(grid, start, goal)`. -/
def a_star_con_heuristica_mejorada (c : Cfg) (grid : Grid) (start goal : Cell) :
    List Cell :=
  let st0 : AStarSt := ⟨[((0, 0), start)], [(start, none)], [(start, 0)]⟩
  let cf := astarLoop c grid goal (astarFuel c) st0
  match dictGet cf goal with
  | none => []
  | some _ => reconstruct cf cf.length goal []

/-- `_a_star_predictivo`: search to the predicted player cell, retry with the
actual cell when the first path is missing or shorter than 2, convert the
first step to an action. -/
def a_star_predictivo (c : Cfg) (st : EngState) (enemigo jugador : Pt)
    (obstaculos : List Obstaculo) : ℕ :=
  let pos_predicha := predecir_posicion_jugador c st.historial_jugador
  let grid := crear_grid_mejorado c obstaculos
  let start := pos_a_grid c enemigo.x enemigo.y
  let goal_pred := pos_a_grid c pos_predicha.1 pos_predicha.2
  let goal_actual := pos_a_grid c jugador.x jugador.y
  let path0 := a_star_con_heuristica_mejorada c grid start goal_pred
  let path :=
    if path0.length < 2 then a_star_con_heuristica_mejorada c grid start goal_actual
    else path0
  path_a_accion path start

/-- `_fuerza_a_accion`: quantize a force vector; magnitudes below 0.1 give
Hold, otherwise each normalized component is thresholded at ±0.5. -/
noncomputable def fuerza_a_accion (fx fy : ℝ) : ℕ :=
  let magnitud := Real.sqrt (fx ^ 2 + fy ^ 2)
  if magnitud < 1/10 then 8
  else
    let fx_norm := fx / magnitud
    let fy_norm := fy / magnitud
    let dx : ℤ := if fx_norm > 1/2 then 1 else if fx_norm < -(1/2 : ℝ) then -1 else 0
    let dy : ℤ := if fy_norm > 1/2 then 1 else if fy_norm < -(1/2 : ℝ) then -1 else 0
    indexMovimiento (dx, dy)

/-- `_campo_potencial`: attraction normalized to magnitude 10 plus inverse
square repulsion from every obstacle whose center is within 25 px. -/
noncomputable def campo_potencial (enemigo jugador : Pt)
    (obstaculos : List Obstaculo) : ℕ :=
  let fx_atractiva0 : ℝ := ((jugador.x - enemigo.x : ℚ) : ℝ)
  let fy_atractiva0 : ℝ := ((jugador.y - enemigo.y : ℚ) : ℝ)
  let dist_jugador : ℝ := max (Real.sqrt (fx_atractiva0 ^ 2 + fy_atractiva0 ^ 2)) 1
  let fx_atractiva := fx_atractiva0 / dist_jugador * 10
  let fy_atractiva := fy_atractiva0 / dist_jugador * 10
  let rep : ℝ × ℝ :=
    obstaculos.foldl
      (fun acc obstaculo =>
        let dist_x : ℝ := ((enemigo.x - ((obstaculo.x : ℚ) + (obstaculo.ancho : ℚ) / 2) : ℚ) : ℝ)
        let dist_y : ℝ := ((enemigo.y - ((obstaculo.y : ℚ) + (obstaculo.alto : ℚ) / 2) : ℚ) : ℝ)
        let distancia : ℝ := Real.sqrt (dist_x ^ 2 + dist_y ^ 2)
        if distancia < 25 then
          let factor_repulsion : ℝ := 500 / max (distancia ^ 2) 1
          (acc.1 + dist_x / max distancia 1 * factor_repulsion,
           acc.2 + dist_y / max distancia 1 * factor_repulsion)
        else acc)
      (0, 0)
  fuerza_a_accion (fx_atractiva + rep.1) (fy_atractiva + rep.2)

/-- One evaluate→select→mutate cycle of `_algoritmo_genetico`'s generation loop. -/
def generacion (c : Cfg) (e j : Pt) (obs : List Obstaculo)
    (pr : List Individuo × Rng) : Except String (List Individuo × Rng) := do
  let evaluada := evaluar_poblacion c e j obs pr.1
  let (p1, r1) ← seleccion_y_reproduccion evaluada pr.2
  let (p2, r2) ← mutacion c p1 r1
  pure (p2, r2)

/-- `_algoritmo_genetico(enemigo, jugador, obstaculos, generaciones=5)`:
lazily initialize the population, run evaluate→select→mutate cycles, return
the first step of the fittest route (Hold when it is degenerate).  The final
engine state carries the evolved population. -/
def algoritmo_genetico (c : Cfg) (st : EngState) (enemigo jugador : Pt)
    (obstaculos : List Obstaculo) (r : Rng) (generaciones : ℕ := 5) :
    Except String (ℕ × EngState × Rng) :=
  let pr0 :=
    if st.poblacion_rutas.isEmpty then
      inicializar_poblacion_genetica c enemigo jugador r
    else (st.poblacion_rutas, r)
  ((List.range generaciones).foldlM
      (fun (pr : List Individuo × Rng) _ => generacion c enemigo jugador obstaculos pr)
      pr0).bind fun plr =>
    let mejor_ruta := maxByFitness plr.1
    let st' : EngState := { st with poblacion_rutas := plr.1 }
    if 1 < mejor_ruta.path.length then
      .ok (path_a_accion mejor_ruta.path (pos_a_grid c enemigo.x enemigo.y), st', plr.2)
    else
      .ok (8, st', plr.2)

/-- `_algoritmo_hibrido`: update the player history, then branch on the
distance (compared squared — `math.hypot` is monotone) and, close in, on the
direct-obstacle raycast. -/
noncomputable def algoritmo_hibrido (c : Cfg) (st : EngState) (enemigo jugador : Pt)
    (obstaculos : List Obstaculo) (r : Rng) : Except String (ℕ × EngState × Rng) :=
  let st1 : EngState :=
    { st with historial_jugador := actualizar_historial_jugador st.historial_jugador jugador }
  let dx := jugador.x - enemigo.x
  let dy := jugador.y - enemigo.y
  let dist_sq := dx ^ 2 + dy ^ 2
  if 90000 < dist_sq then algoritmo_genetico c st1 enemigo jugador obstaculos r 3
  else if 40000 < dist_sq then
    .ok (a_star_predictivo c st1 enemigo jugador obstaculos, st1, r)
  else if ¬hay_obstaculo_directo c enemigo jugador obstaculos then
    .ok (campo_potencial enemigo jugador obstaculos, st1, r)
  else
    .ok (a_star_predictivo c st1 enemigo jugador obstaculos, st1, r)

/-- The mode strings of `calcular_mejor_accion`. -/
def modoHibrido : String := "hibrido"

/-- Mode string selecting the predictive grid search. -/
def modoPredictivo : String := "predictivo"

/-- Mode string selecting the potential-field navigator. -/
def modoCampoPotencial : String := "campo_potencial"

/-- Mode string selecting the genetic optimizer. -/
def modoGenetico : String := "genetico"

/-- `calcular_mejor_accion(enemigo, jugador, obstaculos, modo="hibrido")`:
dispatch on the mode string; unrecognized modes fall back to predictive A*. -/
noncomputable def calcular_mejor_accion (c : Cfg) (st : EngState)
    (enemigo jugador : Pt) (obstaculos : List Obstaculo) (modo : String) (r : Rng) :
    Except String (ℕ × EngState × Rng) :=
  if modo = modoHibrido then algoritmo_hibrido c st enemigo jugador obstaculos r
  else if modo = modoPredictivo then
    .ok (a_star_predictivo c st enemigo jugador obstaculos, st, r)
  else if modo = modoCampoPotencial then
    .ok (campo_potencial enemigo jugador obstaculos, st, r)
  else if modo = modoGenetico then algoritmo_genetico c st enemigo jugador obstaculos r
  else .ok (a_star_predictivo c st enemigo jugador obstaculos, st, r)

/-- The action component of an engine result, when no exception was raised. -/
def accionDe (res : Except String (ℕ × EngState × Rng)) : Option ℕ :=
  match res with
  | .ok (a, _, _) => some a
  | .error _ => none

/-- Whether the engine call raised an exception. -/
def esError {α : Type} : Except String α → Bool
  | .error _ => true
  | .ok _ => false

/-! ### Spec-side definitions (for refinement claims) -/

/-- The strategies the hybrid dispatcher can select. -/
inductive Estrategia where
  | genetico (generaciones : ℕ)
  | predictivo
  | campoPotencial
deriving DecidableEq

/-- Modelled from the spec's dispatcher table (§4.6 / §8), as a pure function
of squared distance and the line-of-sight answer: squared thresholds are used
because `math.hypot` is monotone (`d > 300 ↔ d² > 90000`). -/
def despacho_spec (dist_sq : ℚ) (bloqueado : Bool) : Estrategia :=
  if 90000 < dist_sq then .genetico 3
  else if 40000 < dist_sq then .predictivo
  else if bloqueado then .predictivo
  else .campoPotencial

/-- What running a selected strategy means for the engine call (the genetic
branch threads state and randomness; the other two are pure in both). -/
noncomputable def ejecutarEstrategia (c : Cfg) (st : EngState) (enemigo jugador : Pt)
    (obstaculos : List Obstaculo) (r : Rng) : Estrategia → Except String (ℕ × EngState × Rng)
  | .genetico g => algoritmo_genetico c st enemigo jugador obstaculos r g
  | .predictivo => .ok (a_star_predictivo c st enemigo jugador obstaculos, st, r)
  | .campoPotencial => .ok (campo_potencial enemigo jugador obstaculos, st, r)

/-- Modelled from the spec (§4.1), to be compared with the source's
`_predecir_posicion_jugador`: the 3-step-ahead projection of the linearly
recency-weighted average per-step velocity, clamped to the map bounds. -/
def prediccion_spec (c : Cfg) (hist : List (ℚ × ℚ)) : ℚ × ℚ :=
  if hist.length < 3 then hist.getLast?.getD (0, 0)
  else
    let velocidades : List (ℚ × ℚ) :=
      (hist.zip hist.tail).map fun pc => (pc.2.1 - pc.1.1, pc.2.2 - pc.1.2)
    let sum_weights : ℚ :=
      (((List.range velocidades.length).map fun k => ((k : ℚ) + 1)).sum)
    let vx_pred : ℚ :=
      (((velocidades.zip (List.range velocidades.length)).map
        fun vi => vi.1.1 * ((vi.2 : ℚ) + 1)).sum) / sum_weights
    let vy_pred : ℚ :=
      (((velocidades.zip (List.range velocidades.length)).map
        fun vi => vi.1.2 * ((vi.2 : ℚ) + 1)).sum) / sum_weights
    let pos_actual := hist.getLast?.getD (0, 0)
    (clampQ 0 (pos_actual.1 + vx_pred * 3) (c.ancho_mapa : ℚ),
     clampQ 0 (pos_actual.2 + vy_pred * 3) (c.alto_mapa : ℚ))

/-! ### Concrete scenario data -/

/-- A 300×300 map with the default cell size (20×20 grid), as in the game
(`AlgoritmoPersecucionInteligente(ancho, alto)` with `cell_size = 15`). -/
def cfg300 : Cfg := ⟨300, 300, 15⟩

/-- A fresh engine state (empty history, uninitialized population). -/
def st0 : EngState := ⟨[], []⟩

/-- A concrete random stream. -/
def rng0 : Rng := ⟨fun _ => 0, 0⟩

/-- The origin point. -/
def pOrigen : Pt := ⟨0, 0⟩

/-! ### C10 -/

/-- C10: whenever both |pursuer.x − target.x| and |pursuer.y − target.y| are
strictly below `cell_size`, the raycast computes zero sampling steps and
reports the segment clear regardless of the obstacle list, so the hybrid
dispatcher at squared distance ≤ 40000 (distance ≤ 200) takes the
potential-field branch; the closed conjunct exhibits a configuration where
this happens although an obstacle (rect (5,−1,4,2)) contains the midpoint
(7,0) of the pursuer-target segment (0,0)–(14,0). -/
theorem C10_raycast_cero_pasos :
    (∀ (c : Cfg) (e j : Pt) (obs : List Obstaculo),
      |e.x - j.x| < (c.cell_size : ℚ) → |e.y - j.y| < (c.cell_size : ℚ) →
      hay_obstaculo_directo c e j obs = false ∧
      ∀ (st : EngState) (r : Rng),
        (j.x - e.x) ^ 2 + (j.y - e.y) ^ 2 ≤ 40000 →
        algoritmo_hibrido c st e j obs r =
          .ok (campo_potencial e j obs,
               { st with historial_jugador :=
                   actualizar_historial_jugador st.historial_jugador j }, r)) ∧
    (algoritmo_hibrido cfg300 st0 pOrigen ⟨14, 0⟩ [⟨5, -1, 4, 2⟩] rng0 =
        .ok (campo_potencial pOrigen ⟨14, 0⟩ [⟨5, -1, 4, 2⟩], ⟨[(14, 0)], []⟩, rng0) ∧
      (Obstaculo.rect ⟨5, -1, 4, 2⟩).collidepoint 7 0 = true) := by
  have main : ∀ (c : Cfg) (e j : Pt) (obs : List Obstaculo),
      |e.x - j.x| < (c.cell_size : ℚ) → |e.y - j.y| < (c.cell_size : ℚ) →
      hay_obstaculo_directo c e j obs = false ∧
      ∀ (st : EngState) (r : Rng),
        (j.x - e.x) ^ 2 + (j.y - e.y) ^ 2 ≤ 40000 →
        algoritmo_hibrido c st e j obs r =
          .ok (campo_potencial e j obs,
               { st with historial_jugador :=
                   actualizar_historial_jugador st.historial_jugador j }, r) := by
    intro c e j obs hx hy
    have hcs : (0 : ℚ) < (c.cell_size : ℚ) := lt_of_le_of_lt (abs_nonneg _) hx
    have hmax : max |e.x - j.x| |e.y - j.y| < (c.cell_size : ℚ) := max_lt hx hy
    have hmax0 : (0 : ℚ) ≤ max |e.x - j.x| |e.y - j.y| :=
      le_trans (abs_nonneg _) (le_max_left _ _)
    have hsteps : ⌊max |e.x - j.x| |e.y - j.y| / (c.cell_size : ℚ)⌋ = 0 := by
      rw [Int.floor_eq_zero_iff]
      constructor
      · exact div_nonneg hmax0 hcs.le
      · exact (div_lt_one hcs).mpr hmax
    have hlos : hay_obstaculo_directo c e j obs = false := by
      unfold hay_obstaculo_directo
      simp [hsteps]
    refine ⟨hlos, ?_⟩
    intro st r hd
    have h1 : ¬(90000 < (j.x - e.x) ^ 2 + (j.y - e.y) ^ 2) :=
      not_lt.mpr (hd.trans (by norm_num))
    have h2 : ¬(40000 < (j.x - e.x) ^ 2 + (j.y - e.y) ^ 2) := not_lt.mpr hd
    unfold algoritmo_hibrido
    simp [h1, h2, hlos]
  refine ⟨main, ?_, by decide⟩
  have h := (main cfg300 pOrigen ⟨14, 0⟩ [⟨5, -1, 4, 2⟩]
      (by norm_num [pOrigen, cfg300]) (by norm_num [pOrigen, cfg300])).2 st0 rng0
      (by norm_num [pOrigen])
  simpa [st0, actualizar_historial_jugador, pOrigen] using h

/-- Closed witness for C10: the hypotheses are satisfiable (segment shorter
than one cell in both axes, squared distance within the close band). -/
theorem C10_raycast_cero_pasos_witness :
    hay_obstaculo_directo cfg300 pOrigen ⟨14, 0⟩ [⟨5, -1, 4, 2⟩] = false :=
  (C10_raycast_cero_pasos.1 cfg300 pOrigen ⟨14, 0⟩ [⟨5, -1, 4, 2⟩]
    (by norm_num [pOrigen, cfg300]) (by norm_num [pOrigen, cfg300])).1

/-! ### C7 -/

/-- When start and goal coincide, the very first pop ends the search and the
reconstructed path is the single-cell path `[s]`. -/
theorem astar_mismo_inicio_meta (c : Cfg) (grid : Grid) (s : Cell) :
    a_star_con_heuristica_mejorada c grid s s = [s] := by
  unfold a_star_con_heuristica_mejorada astarFuel
  simp [astarLoop, reconstruct, dictGet]

/-- C7: the predictive strategy first searches to the predicted target cell;
if that path is missing or shorter than 2 it retries with the actual target
cell; if both attempts are degenerate the returned action is Hold (8). -/
theorem C7_predictivo_reintento (c : Cfg) (st : EngState) (e j : Pt)
    (obs : List Obstaculo) :
    (2 ≤ (a_star_con_heuristica_mejorada c (crear_grid_mejorado c obs)
          (pos_a_grid c e.x e.y)
          (pos_a_grid c (predecir_posicion_jugador c st.historial_jugador).1
            (predecir_posicion_jugador c st.historial_jugador).2)).length →
      a_star_predictivo c st e j obs =
        path_a_accion
          (a_star_con_heuristica_mejorada c (crear_grid_mejorado c obs)
            (pos_a_grid c e.x e.y)
            (pos_a_grid c (predecir_posicion_jugador c st.historial_jugador).1
              (predecir_posicion_jugador c st.historial_jugador).2))
          (pos_a_grid c e.x e.y)) ∧
    ((a_star_con_heuristica_mejorada c (crear_grid_mejorado c obs)
          (pos_a_grid c e.x e.y)
          (pos_a_grid c (predecir_posicion_jugador c st.historial_jugador).1
            (predecir_posicion_jugador c st.historial_jugador).2)).length < 2 →
      a_star_predictivo c st e j obs =
        path_a_accion
          (a_star_con_heuristica_mejorada c (crear_grid_mejorado c obs)
            (pos_a_grid c e.x e.y) (pos_a_grid c j.x j.y))
          (pos_a_grid c e.x e.y)) ∧
    ((a_star_con_heuristica_mejorada c (crear_grid_mejorado c obs)
          (pos_a_grid c e.x e.y)
          (pos_a_grid c (predecir_posicion_jugador c st.historial_jugador).1
            (predecir_posicion_jugador c st.historial_jugador).2)).length < 2 →
      (a_star_con_heuristica_mejorada c (crear_grid_mejorado c obs)
          (pos_a_grid c e.x e.y) (pos_a_grid c j.x j.y)).length < 2 →
      a_star_predictivo c st e j obs = 8) := by
  refine ⟨?_, ?_, ?_⟩
  · intro h
    simp only [a_star_predictivo]
    rw [if_neg (by omega)]
  · intro h
    simp only [a_star_predictivo]
    rw [if_pos h]
  · intro h1 h2
    simp only [a_star_predictivo]
    rw [if_pos h1]
    unfold path_a_accion
    rw [if_pos h2]

/-- Closed witness for C7: with an empty history and pursuer on the target,
both searches return the single-cell path, and the strategy holds still. -/
theorem C7_predictivo_reintento_witness :
    a_star_predictivo cfg300 st0 pOrigen pOrigen [] = 8 := by
  have hp : (predecir_posicion_jugador cfg300 st0.historial_jugador) = ((0 : ℚ), (0 : ℚ)) := by
    simp [st0, predecir_posicion_jugador]
  refine (C7_predictivo_reintento cfg300 st0 pOrigen pOrigen []).2.2 ?_ ?_ <;>
    simp [hp, pOrigen, astar_mismo_inicio_meta]

/-! ### C4 -/

/-- C4: with fewer than 3 samples the predictor returns the last recorded
position (or the origin when empty); with 3 or more it returns the
3-step-ahead projection (the element of index 2 of the five projections,
i.e. `t = 3`) of the linearly recency-weighted average per-step velocity,
clamped to the map bounds — the spec-side `prediccion_spec`; consequently,
after recording (0,0), (10,0), (20,0) the predicted x strictly exceeds 20
whenever the map is wider than 20. -/
theorem C4_predictor :
    (∀ (c : Cfg) (hist : List (ℚ × ℚ)), hist.length < 3 →
      predecir_posicion_jugador c hist = hist.getLast?.getD (0, 0)) ∧
    (∀ (c : Cfg) (hist : List (ℚ × ℚ)),
      predecir_posicion_jugador c hist = prediccion_spec c hist) ∧
    (∀ c : Cfg, 20 < c.ancho_mapa →
      20 < (predecir_posicion_jugador c [(0, 0), (10, 0), (20, 0)]).1) := by
  have heq : ∀ (c : Cfg) (hist : List (ℚ × ℚ)),
      predecir_posicion_jugador c hist = prediccion_spec c hist := by
    intro c hist
    unfold predecir_posicion_jugador prediccion_spec
    by_cases h : hist.length < 3
    · rw [if_pos h, if_pos h]
    · rw [if_neg h, if_neg h]
      have h5 : List.range 5 = [0, 1, 2, 3, 4] := rfl
      simp only [h5, List.map_cons, List.map_nil, List.length_cons, List.length_nil,
        List.getD_cons_succ, List.getD_cons_zero]
      norm_num
  refine ⟨?_, heq, ?_⟩
  · intro c hist h
    unfold predecir_posicion_jugador
    rw [if_pos h]
  · intro c hc
    rw [heq]
    have hc' : (20 : ℚ) < (c.ancho_mapa : ℚ) := by exact_mod_cast hc
    have hval : prediccion_spec c [(0, 0), (10, 0), (20, 0)] =
        (clampQ 0 50 (c.ancho_mapa : ℚ), clampQ 0 0 (c.alto_mapa : ℚ)) := by
      unfold prediccion_spec
      have h2 : List.range 2 = [0, 1] := rfl
      norm_num [h2]
    rw [hval]
    show (20 : ℚ) < max 0 (min 50 (c.ancho_mapa : ℚ))
    calc (20 : ℚ) < min 50 (c.ancho_mapa : ℚ) := lt_min (by norm_num) hc'
      _ ≤ max 0 (min 50 (c.ancho_mapa : ℚ)) := le_max_right _ _

/-- Closed witness for C4: the short-history clause at a concrete history,
and the scenario clause at the 300-wide map. -/
theorem C4_predictor_witness :
    predecir_posicion_jugador cfg300 [(3, 4)] = (3, 4) ∧
      20 < (predecir_posicion_jugador cfg300 [(0, 0), (10, 0), (20, 0)]).1 :=
  ⟨by rw [C4_predictor.1 cfg300 [(3, 4)] (by norm_num)]; rfl,
   C4_predictor.2.2 cfg300 (by norm_num [cfg300])⟩

/-! ### C2 -/

/-- Number of raycast sampling steps between the two agents. -/
def pasosRaycast (c : Cfg) (e j : Pt) : ℤ :=
  ⌊max |e.x - j.x| |e.y - j.y| / (c.cell_size : ℚ)⌋

/-- The i-th sample rectangle of the raycast between `e` and `j`. -/
def puntoRaycast (c : Cfg) (e j : Pt) (i : ℕ) : Rect :=
  ⟨pyInt (e.x + (j.x - e.x) * ((i : ℚ) / ((pasosRaycast c e j : ℤ) : ℚ))),
   pyInt (e.y + (j.y - e.y) * ((i : ℚ) / ((pasosRaycast c e j : ℤ) : ℚ))), 2, 2⟩

/-- C2: under mode "hybrid" the selected strategy is exactly
`despacho_spec` applied to the squared pursuer-target distance and the
line-of-sight bit (genetic with 3 generations above 300, grid search in
(200,300], potential field at ≤ 200 with clear sight, grid search at ≤ 200
when blocked); and the line-of-sight bit is blocked iff some sample
`i ∈ [1, steps]` of the segment, taken at `cell_size` granularity, collides
with some obstacle rectangle. -/
theorem C2_despacho_hibrido (c : Cfg) (st : EngState) (e j : Pt)
    (obs : List Obstaculo) (r : Rng) :
    algoritmo_hibrido c st e j obs r =
      ejecutarEstrategia c
        { st with historial_jugador :=
            actualizar_historial_jugador st.historial_jugador j }
        e j obs r
        (despacho_spec ((j.x - e.x) ^ 2 + (j.y - e.y) ^ 2)
          (hay_obstaculo_directo c e j obs)) ∧
    (hay_obstaculo_directo c e j obs = true ↔
      (pasosRaycast c e j ≠ 0 ∧
        ∃ i : ℕ, 1 ≤ i ∧ (i : ℤ) ≤ pasosRaycast c e j ∧
          ∃ o ∈ obs, (puntoRaycast c e j i).colliderect o.rect = true)) := by
  constructor
  · by_cases h1 : 90000 < (j.x - e.x) ^ 2 + (j.y - e.y) ^ 2
    · simp [algoritmo_hibrido, despacho_spec, ejecutarEstrategia, h1]
    · by_cases h2 : 40000 < (j.x - e.x) ^ 2 + (j.y - e.y) ^ 2
      · simp [algoritmo_hibrido, despacho_spec, ejecutarEstrategia, h1, h2]
      · by_cases h3 : hay_obstaculo_directo c e j obs
        · simp [algoritmo_hibrido, despacho_spec, ejecutarEstrategia, h1, h2, h3]
        · simp [algoritmo_hibrido, despacho_spec, ejecutarEstrategia, h1, h2, h3]
  · have hrw : hay_obstaculo_directo c e j obs =
        if pasosRaycast c e j = 0 then false
        else (List.range (pasosRaycast c e j).toNat).any fun k =>
          obs.any fun o => (puntoRaycast c e j (k + 1)).colliderect o.rect := by
      unfold hay_obstaculo_directo pasosRaycast puntoRaycast
      push_cast
      rfl
    rw [hrw]
    have h0 : 0 ≤ pasosRaycast c e j := by
      unfold pasosRaycast
      positivity
    by_cases hs : pasosRaycast c e j = 0
    · simp [hs]
    · rw [if_neg hs]
      rw [List.any_eq_true]
      constructor
      · rintro ⟨k, hk, hany⟩
        rw [List.mem_range] at hk
        rw [List.any_eq_true] at hany
        exact ⟨hs, k + 1, le_add_self, by omega, hany⟩
      · rintro ⟨-, i, hi1, hile, o, ho, hcol⟩
        refine ⟨i - 1, List.mem_range.mpr (by omega), List.any_eq_true.mpr ⟨o, ho, ?_⟩⟩
        have hi : i - 1 + 1 = i := by omega
        rw [hi]
        exact hcol

/-! ### C5 -/

/-- `getD` on a map over `List.range`. -/
theorem getD_map_range {α : Type} (f : ℕ → α) (n k : ℕ) (d : α) (h : k < n) :
    ((List.range n).map f).getD k d = f k := by
  rw [List.getD_eq_getElem?_getD, List.getElem?_map, List.getElem?_range h]
  rfl

/-- `getD` on a replicated list. -/
theorem getD_replicate {α : Type} (x d : α) (m k : ℕ) :
    (List.replicate m x).getD k d = if k < m then x else d := by
  induction m generalizing k with
  | zero => simp
  | succ m ih =>
    cases k with
    | zero => simp [List.replicate]
    | succ k =>
      rw [List.replicate_succ, List.getD_cons_succ, ih]
      simp [Nat.succ_lt_succ_iff]

/-- The fresh grid is all zeros. -/
theorem gridAt_grid0 (c : Cfg) (i j : ℤ) :
    gridAt (List.replicate c.rows (List.replicate c.cols 0)) i j = 0 := by
  unfold gridAt
  rw [getD_replicate]
  split
  · rw [getD_replicate]
    split <;> rfl
  · rfl

/-- Reading one in-range cell after marking one rectangle. -/
theorem gridAt_marcarRect (c : Cfg) (rect : Rect) (grid : Grid) (i j : ℕ)
    (hi : i < c.rows) (hj : j < c.cols) :
    gridAt (marcarRect c rect grid) (i : ℤ) (j : ℤ) =
      if rect.collidepoint (grid_a_pos c (i : ℤ) (j : ℤ)).1 (grid_a_pos c (i : ℤ) (j : ℤ)).2
      then 1 else gridAt grid (i : ℤ) (j : ℤ) := by
  unfold marcarRect gridAt
  rw [Int.toNat_natCast, Int.toNat_natCast, getD_map_range _ _ _ _ hi,
    getD_map_range _ _ _ _ hj]
  simp

/-- C5: a cell is blocked in the built navigation grid iff its world-space
center lies (pygame `collidepoint` semantics) inside some obstacle rectangle
inflated by the margin on all sides; in particular, for the single obstacle
(100,100,40,40) with margin 15 on the 300×300 map, a cell is blocked iff its
center lies within the closed square (85,85)–(155,155) (no cell center of
this grid lies on the half-open boundary, so blocked = inside, free = outside). -/
theorem C5_grid_inflado :
    (∀ (c : Cfg) (obst : List Obstaculo) (m : ℤ) (i j : ℕ), i < c.rows → j < c.cols →
      (gridAt (crear_grid_mejorado c obst m) (i : ℤ) (j : ℤ) = 1 ↔
        ∃ o ∈ obst,
          (Rect.collidepoint
            ⟨o.x - m, o.y - m, o.ancho + 2 * m, o.alto + 2 * m⟩
            (grid_a_pos c (i : ℤ) (j : ℤ)).1 (grid_a_pos c (i : ℤ) (j : ℤ)).2) = true)) ∧
    (∀ i : ℕ, i < 20 → ∀ j : ℕ, j < 20 →
      ((85 ≤ (grid_a_pos cfg300 (i : ℤ) (j : ℤ)).1 ∧
        (grid_a_pos cfg300 (i : ℤ) (j : ℤ)).1 ≤ 155 ∧
        85 ≤ (grid_a_pos cfg300 (i : ℤ) (j : ℤ)).2 ∧
        (grid_a_pos cfg300 (i : ℤ) (j : ℤ)).2 ≤ 155) →
          gridAt (crear_grid_mejorado cfg300 [⟨100, 100, 40, 40⟩]) (i : ℤ) (j : ℤ) = 1) ∧
      (¬(85 ≤ (grid_a_pos cfg300 (i : ℤ) (j : ℤ)).1 ∧
        (grid_a_pos cfg300 (i : ℤ) (j : ℤ)).1 ≤ 155 ∧
        85 ≤ (grid_a_pos cfg300 (i : ℤ) (j : ℤ)).2 ∧
        (grid_a_pos cfg300 (i : ℤ) (j : ℤ)).2 ≤ 155) →
          gridAt (crear_grid_mejorado cfg300 [⟨100, 100, 40, 40⟩]) (i : ℤ) (j : ℤ) = 0)) := by
  constructor
  · intro c obst m i j hi hj
    unfold crear_grid_mejorado
    have main : ∀ (l : List Obstaculo) (grid : Grid),
        gridAt (l.foldl
          (fun grid o =>
            marcarRect c ⟨o.x - m, o.y - m, o.ancho + 2 * m, o.alto + 2 * m⟩ grid)
          grid) (i : ℤ) (j : ℤ) = 1 ↔
        (gridAt grid (i : ℤ) (j : ℤ) = 1 ∨
          ∃ o ∈ l,
            (Rect.collidepoint
              ⟨o.x - m, o.y - m, o.ancho + 2 * m, o.alto + 2 * m⟩
              (grid_a_pos c (i : ℤ) (j : ℤ)).1 (grid_a_pos c (i : ℤ) (j : ℤ)).2) = true) := by
      intro l
      induction l with
      | nil => simp
      | cons o os ih =>
        intro grid
        rw [List.foldl_cons, ih, gridAt_marcarRect c _ _ i j hi hj]
        by_cases hcol : (Rect.collidepoint
            ⟨o.x - m, o.y - m, o.ancho + 2 * m, o.alto + 2 * m⟩
            (grid_a_pos c (i : ℤ) (j : ℤ)).1 (grid_a_pos c (i : ℤ) (j : ℤ)).2) = true
        · simp [hcol]
        · simp [hcol]
    rw [main]
    rw [gridAt_grid0]
    simp
  · decide

/-- Closed witness for C5: the general clause applied at the 300×300 map,
obstacle (100,100,40,40), margin 15, cell (7,7) (center (112,112), inside). -/
theorem C5_grid_inflado_witness :
    gridAt (crear_grid_mejorado cfg300 [⟨100, 100, 40, 40⟩] 15) (7 : ℤ) (7 : ℤ) = 1 :=
  (C5_grid_inflado.1 cfg300 [⟨100, 100, 40, 40⟩] 15 7 7 (by decide) (by decide)).mpr
    ⟨⟨100, 100, 40, 40⟩, by decide, by decide⟩

/-! ### C6 -/

/-- Fitness values with the same symbolic distance term compare by their
rational parts. -/
theorem fitToReal_lt_mismo_dsq (b1 b2 d : ℚ) (h : b1 < b2) :
    (Fit.mk b1 d).toReal < (Fit.mk b2 d).toReal := by
  unfold Fit.toReal
  have hb : ((b1 : ℝ)) < (b2 : ℝ) := by exact_mod_cast h
  exact sub_lt_sub_right hb _

/-- The fitness of a non-empty route, spelled out. -/
theorem fitness_ruta_no_vacia (c : Cfg) (grid : Grid) (j : Pt) (r : List Cell)
    (h : r ≠ []) :
    fitness_ruta c grid j r =
      if 40000 ≤
          (((grid_a_pos c (r.getLast?.getD (0, 0)).1 (r.getLast?.getD (0, 0)).2).1 : ℚ) - j.x) ^ 2 +
          (((grid_a_pos c (r.getLast?.getD (0, 0)).1 (r.getLast?.getD (0, 0)).2).2 : ℚ) - j.y) ^ 2
      then ⟨-(2 * (r.length : ℚ)) - 50 * (colisionesRuta c grid r : ℚ)
              - 5 * (cambiosDireccion r : ℚ), 0⟩
      else ⟨-(2 * (r.length : ℚ)) - 50 * (colisionesRuta c grid r : ℚ)
              - 5 * (cambiosDireccion r : ℚ) + 200,
            (((grid_a_pos c (r.getLast?.getD (0, 0)).1 (r.getLast?.getD (0, 0)).2).1 : ℚ) - j.x) ^ 2 +
            (((grid_a_pos c (r.getLast?.getD (0, 0)).1 (r.getLast?.getD (0, 0)).2).2 : ℚ) - j.y) ^ 2⟩ := by
  unfold fitness_ruta
  rw [if_neg]
  simp [h]

/-- The 315×315 map (21×21 grid). -/
def cfg315 : Cfg := ⟨315, 315, 15⟩

/-- A 21×21 grid whose only blocked cell is (1,0). -/
def gridC6 : Grid :=
  (List.replicate 21 (List.replicate 21 0)).set 1 ((List.replicate 21 (0 : ℕ)).set 0 1)

/-- Target at the center of cell (0,0). -/
def jugC6 : Pt := ⟨7, 7⟩

/-- A route through free cells only, ending far from the target. -/
def rutaLimpia : List Cell := [(0, 14), (0, 15), (0, 16)]

/-- An equal-length route through the blocked cell (1,0), ending on the target. -/
def rutaColision : List Cell := [(2, 0), (1, 0), (0, 0)]

/-- C6 counterexample: two equal-length routes against the same grid and
target where the route through a blocked cell scores strictly HIGHER than the
collision-free one (the collision-free route forfeits the proximity reward:
−6 versus −6 − 50 + 200 = 144), refuting the claim as stated. -/
theorem C6_contraejemplo :
    rutaLimpia.length = rutaColision.length ∧
    colisionesRuta cfg315 gridC6 rutaLimpia = 0 ∧
    1 ≤ colisionesRuta cfg315 gridC6 rutaColision ∧
    (fitness_ruta cfg315 gridC6 jugC6 rutaLimpia).toReal <
      (fitness_ruta cfg315 gridC6 jugC6 rutaColision).toReal := by
  refine ⟨by decide, by decide, by decide, ?_⟩
  have hA : fitness_ruta cfg315 gridC6 jugC6 rutaLimpia = ⟨-6, 0⟩ := by
    rw [fitness_ruta_no_vacia _ _ _ _ (by decide)]
    rw [if_pos]
    · have h1 : colisionesRuta cfg315 gridC6 rutaLimpia = 0 := by decide
      have h2 : cambiosDireccion rutaLimpia = 0 := by decide
      have h3 : rutaLimpia.length = 3 := by decide
      rw [h1, h2, h3]
      norm_num
    · norm_num [rutaLimpia, grid_a_pos, cfg315, jugC6]
  have hB : fitness_ruta cfg315 gridC6 jugC6 rutaColision = ⟨144, 0⟩ := by
    rw [fitness_ruta_no_vacia _ _ _ _ (by decide)]
    have hd : (((grid_a_pos cfg315 (rutaColision.getLast?.getD (0, 0)).1
          (rutaColision.getLast?.getD (0, 0)).2).1 : ℚ) - jugC6.x) ^ 2 +
        (((grid_a_pos cfg315 (rutaColision.getLast?.getD (0, 0)).1
          (rutaColision.getLast?.getD (0, 0)).2).2 : ℚ) - jugC6.y) ^ 2 = 0 := by
      norm_num [rutaColision, grid_a_pos, cfg315, jugC6]
    rw [hd, if_neg (by norm_num)]
    have h1 : colisionesRuta cfg315 gridC6 rutaColision = 1 := by decide
    have h2 : cambiosDireccion rutaColision = 0 := by decide
    have h3 : rutaColision.length = 3 := by decide
    rw [h1, h2, h3]
    norm_num
  rw [hA, hB]
  unfold Fit.toReal
  norm_num

/-- C6 amended: empty routes score −1000, and among two non-empty routes of
equal length, equal final cell, and equally many direction changes, against
the same grid and target, the one through no blocked cell scores strictly
higher than one touching at least one blocked cell (their fitness values
differ exactly by 50 per blocked cell touched). -/
theorem C6_orden_fitness (c : Cfg) (grid : Grid) (j : Pt) :
    (fitness_ruta c grid j []).toReal = -1000 ∧
    ∀ (rA rB : List Cell), rA ≠ [] → rB ≠ [] →
      rA.length = rB.length →
      rA.getLast?.getD (0, 0) = rB.getLast?.getD (0, 0) →
      cambiosDireccion rA = cambiosDireccion rB →
      colisionesRuta c grid rA = 0 →
      1 ≤ colisionesRuta c grid rB →
      (fitness_ruta c grid j rB).toReal < (fitness_ruta c grid j rA).toReal := by
  constructor
  · show (fitness_ruta c grid j []).toReal = -1000
    unfold fitness_ruta Fit.toReal
    norm_num
  · intro rA rB hA hB hlen hfin hcam hcolA hcolB
    rw [fitness_ruta_no_vacia _ _ _ _ hA, fitness_ruta_no_vacia _ _ _ _ hB, hfin, hlen, hcam,
      hcolA]
    have hcolB' : (1 : ℚ) ≤ (colisionesRuta c grid rB : ℚ) := by exact_mod_cast hcolB
    by_cases h40 : (40000 : ℚ) ≤
        (((grid_a_pos c (rB.getLast?.getD (0, 0)).1 (rB.getLast?.getD (0, 0)).2).1 : ℚ) - j.x) ^ 2 +
        (((grid_a_pos c (rB.getLast?.getD (0, 0)).1 (rB.getLast?.getD (0, 0)).2).2 : ℚ) - j.y) ^ 2
    · rw [if_pos h40, if_pos h40]
      apply fitToReal_lt_mismo_dsq
      push_cast
      linarith
    · rw [if_neg h40, if_neg h40]
      apply fitToReal_lt_mismo_dsq
      push_cast
      linarith

/-- Closed witness for C6's amended ordering at a concrete instance: swapping
the roles, a colliding route ending where the clean one ends scores lower. -/
theorem C6_orden_fitness_witness :
    (fitness_ruta cfg315 gridC6 jugC6 [(2, 0), (1, 0), (0, 0)]).toReal <
      (fitness_ruta cfg315 gridC6 jugC6 [(0, 2), (0, 1), (0, 0)]).toReal :=
  (C6_orden_fitness cfg315 gridC6 jugC6).2 [(0, 2), (0, 1), (0, 0)] [(2, 0), (1, 0), (0, 0)]
    (by decide) (by decide) (by decide) (by decide) (by decide) (by decide) (by decide)

/-! ### C9 -/

/-- At zero distance, with every obstacle center at squared distance ≥ 625
(i.e. ≥ 25 px) from the pursuer, all forces vanish and the potential field
returns Hold. -/
theorem campo_potencial_degenerado (e j : Pt) (obs : List Obstaculo)
    (hx : e.x = j.x) (hy : e.y = j.y)
    (hobs : ∀ o ∈ obs, (625 : ℚ) ≤
      (e.x - ((o.x : ℚ) + (o.ancho : ℚ) / 2)) ^ 2 +
      (e.y - ((o.y : ℚ) + (o.alto : ℚ) / 2)) ^ 2) :
    campo_potencial e j obs = 8 := by
  unfold campo_potencial
  have hx0 : j.x - e.x = 0 := by rw [hx]; ring
  have hy0 : j.y - e.y = 0 := by rw [hy]; ring
  rw [hx0, hy0]
  have hrep : ∀ (l : List Obstaculo) (acc : ℝ × ℝ),
      (∀ o ∈ l, (625 : ℚ) ≤
        (e.x - ((o.x : ℚ) + (o.ancho : ℚ) / 2)) ^ 2 +
        (e.y - ((o.y : ℚ) + (o.alto : ℚ) / 2)) ^ 2) →
      (l.foldl
        (fun acc obstaculo =>
          let dist_x : ℝ := ((e.x - ((obstaculo.x : ℚ) + (obstaculo.ancho : ℚ) / 2) : ℚ) : ℝ)
          let dist_y : ℝ := ((e.y - ((obstaculo.y : ℚ) + (obstaculo.alto : ℚ) / 2) : ℚ) : ℝ)
          let distancia : ℝ := Real.sqrt (dist_x ^ 2 + dist_y ^ 2)
          if distancia < 25 then
            let factor_repulsion : ℝ := 500 / max (distancia ^ 2) 1
            (acc.1 + dist_x / max distancia 1 * factor_repulsion,
             acc.2 + dist_y / max distancia 1 * factor_repulsion)
          else acc)
        acc) = acc := by
    intro l
    induction l with
    | nil => intro acc _; rfl
    | cons o os ih =>
      intro acc hl
      have ho := hl o (List.mem_cons_self o os)
      have hfar : ¬(Real.sqrt
          ((((e.x - ((o.x : ℚ) + (o.ancho : ℚ) / 2) : ℚ) : ℝ)) ^ 2 +
           (((e.y - ((o.y : ℚ) + (o.alto : ℚ) / 2) : ℚ) : ℝ)) ^ 2) < 25) := by
        rw [not_lt]
        have h625 : (625 : ℝ) ≤
            (((e.x - ((o.x : ℚ) + (o.ancho : ℚ) / 2) : ℚ) : ℝ)) ^ 2 +
            (((e.y - ((o.y : ℚ) + (o.alto : ℚ) / 2) : ℚ) : ℝ)) ^ 2 := by
          exact_mod_cast ho
        have := Real.sqrt_le_sqrt h625
        rw [show (625 : ℝ) = 25 ^ 2 by norm_num, Real.sqrt_sq (by norm_num : (0:ℝ) ≤ 25)] at this
        exact this
      rw [List.foldl_cons]
      simp only [if_neg hfar]
      exact ih acc fun o' ho' => hl o' (List.mem_cons_of_mem _ ho')
  rw [hrep _ _ hobs]
  unfold fuerza_a_accion
  have hm : Real.sqrt ((((0:ℚ):ℝ)/(max (Real.sqrt (((0:ℚ):ℝ)^2 + ((0:ℚ):ℝ)^2)) 1) * 10 + 0) ^ 2 +
      (((0:ℚ):ℝ)/(max (Real.sqrt (((0:ℚ):ℝ)^2 + ((0:ℚ):ℝ)^2)) 1) * 10 + 0) ^ 2) = 0 := by
    norm_num
  rw [if_pos (by rw [hm]; norm_num)]

/-- C9 amended: the degenerate-geometry short circuit to Hold holds (a) for
the hybrid engine at exactly zero distance provided no obstacle center lies
within the 25 px avoidance radius (otherwise repulsion moves the agent — see
the counterexample), and (b) for the predictive strategy whenever the start
cell coincides with both the predicted and the actual goal cells. -/
theorem C9_geometria_degenerada :
    (∀ (c : Cfg) (st : EngState) (e j : Pt) (obs : List Obstaculo) (r : Rng),
      e.x = j.x → e.y = j.y →
      (∀ o ∈ obs, (625 : ℚ) ≤
        (e.x - ((o.x : ℚ) + (o.ancho : ℚ) / 2)) ^ 2 +
        (e.y - ((o.y : ℚ) + (o.alto : ℚ) / 2)) ^ 2) →
      accionDe (calcular_mejor_accion c st e j obs modoHibrido r) = some 8) ∧
    (∀ (c : Cfg) (st : EngState) (e j : Pt) (obs : List Obstaculo),
      pos_a_grid c e.x e.y =
        pos_a_grid c (predecir_posicion_jugador c st.historial_jugador).1
          (predecir_posicion_jugador c st.historial_jugador).2 →
      pos_a_grid c e.x e.y = pos_a_grid c j.x j.y →
      a_star_predictivo c st e j obs = 8) := by
  constructor
  · intro c st e j obs r hx hy hobs
    have hx0 : j.x - e.x = 0 := by rw [hx]; ring
    have hy0 : j.y - e.y = 0 := by rw [hy]; ring
    have hlos : hay_obstaculo_directo c e j obs = false := by
      unfold hay_obstaculo_directo
      have : max |e.x - j.x| |e.y - j.y| = 0 := by
        rw [show e.x - j.x = 0 by rw [hx]; ring, show e.y - j.y = 0 by rw [hy]; ring]
        simp
      rw [this]
      simp
    unfold calcular_mejor_accion
    rw [if_pos rfl]
    unfold algoritmo_hibrido
    rw [hx0, hy0]
    rw [if_neg (by norm_num), if_neg (by norm_num), if_pos (by simp [hlos])]
    rw [campo_potencial_degenerado e j obs hx hy hobs]
    rfl
  · intro c st e j obs h1 h2
    simp only [a_star_predictivo]
    rw [← h1, ← h2, astar_mismo_inicio_meta]
    norm_num [path_a_accion]

/-- Closed witness for C9: zero distance, no obstacles at all. -/
theorem C9_geometria_degenerada_witness :
    accionDe (calcular_mejor_accion cfg300 st0 pOrigen pOrigen [] modoHibrido rng0) = some 8 :=
  C9_geometria_degenerada.1 cfg300 st0 pOrigen pOrigen [] rng0 rfl rfl (by simp)

/-- An obstacle whose center (15,0) lies 15 px from the origin. -/
def obsC9 : Obstaculo := ⟨10, -5, 10, 10⟩

/-- C9 counterexample: with pursuer and target both at the origin (zero
distance) and the obstacle (10,−5,10,10) (center 15 px away), the hybrid
engine returns action 6 (move left, away from the obstacle), not Hold — the
claim's "for every obstacle list" fails. -/
theorem C9_contraejemplo :
    accionDe (calcular_mejor_accion cfg300 st0 pOrigen pOrigen [obsC9] modoHibrido rng0) =
      some 6 ∧ (6 : ℕ) ≠ 8 := by
  constructor
  · have h225 : Real.sqrt (225 : ℝ) = 15 := by
      rw [show (225 : ℝ) = 15 ^ 2 by norm_num, Real.sqrt_sq (by norm_num : (0:ℝ) ≤ 15)]
    have hcampo : campo_potencial pOrigen pOrigen [obsC9] = 6 := by
      unfold campo_potencial
      rw [List.foldl_cons, List.foldl_nil]
      norm_num [pOrigen, obsC9]
      rw [h225]
      rw [if_pos (by norm_num)]
      unfold fuerza_a_accion
      norm_num
      rw [show Real.sqrt 400 = 20 by
          rw [show (400 : ℝ) = 20 ^ 2 by norm_num, Real.sqrt_sq (by norm_num : (0:ℝ) ≤ 20)],
        show Real.sqrt 81 = 9 by
          rw [show (81 : ℝ) = 9 ^ 2 by norm_num, Real.sqrt_sq (by norm_num : (0:ℝ) ≤ 9)]]
      norm_num
      decide
    have hlos : hay_obstaculo_directo cfg300 pOrigen pOrigen [obsC9] = false := by
      unfold hay_obstaculo_directo
      norm_num [pOrigen]
    unfold calcular_mejor_accion
    rw [if_pos rfl]
    unfold algoritmo_hibrido
    rw [show pOrigen.x - pOrigen.x = 0 by ring, show pOrigen.y - pOrigen.y = 0 by ring]
    rw [if_neg (by norm_num), if_neg (by norm_num), if_pos (by simp [hlos])]
    rw [hcampo]
    rfl
  · decide

/-! ### C8 -/

/-- Splitting a successful `Except` bind. -/
theorem except_bind_ok {α β : Type} (x : Except String α) (f : α → Except String β) (b : β)
    (h : (x >>= f) = .ok b) : ∃ a, x = .ok a ∧ f a = .ok b := by
  cases x with
  | error e => simp [Bind.bind, Except.bind] at h
  | ok a => exact ⟨a, rfl, by simpa [Bind.bind, Except.bind] using h⟩

/-- Inserting one individual grows the sorted list by one. -/
theorem insertDesc_length (x : Individuo) (l : List Individuo) :
    (insertDesc x l).length = l.length + 1 := by
  induction l with
  | nil => rfl
  | cons y ys ih =>
    unfold insertDesc
    split
    · simp
    · simp [ih]

/-- The stable sort preserves length. -/
theorem sortDesc_length (l : List Individuo) : (sortDesc l).length = l.length := by
  unfold sortDesc
  have main : ∀ (l acc : List Individuo),
      (l.foldl (fun acc x => insertDesc x acc) acc).length = acc.length + l.length := by
    intro l
    induction l with
    | nil => simp
    | cons x xs ih =>
      intro acc
      rw [List.foldl_cons, ih, insertDesc_length]
      simp only [List.length_cons]
      omega
  simpa using main l []

/-- The reproduction loop, run with enough fuel, refills the new population
exactly to the old size (or keeps it if it already reached it). -/
theorem reproduccionLoop_length (pobl : List Individuo) :
    ∀ (fuel : ℕ) (nueva : List Individuo) (r : Rng) (out : List Individuo × Rng),
      pobl.length ≤ nueva.length + fuel →
      reproduccionLoop pobl fuel nueva r = .ok out →
      out.1.length = max pobl.length nueva.length := by
  intro fuel
  induction fuel with
  | zero =>
    intro nueva r out hfuel h
    unfold reproduccionLoop at h
    cases h
    simp
    omega
  | succ fuel ih =>
    intro nueva r out hfuel h
    unfold reproduccionLoop at h
    by_cases hlen : nueva.length < pobl.length
    · rw [if_pos hlen] at h
      rw [show ∀ (x : Except String (Individuo × Rng))
          (f : _ → Except String (List Individuo × Rng)), x.bind f = x >>= f from
          fun _ _ => rfl] at h
      obtain ⟨⟨hijo, r3⟩, hcr, hrest⟩ := except_bind_ok _ _ _ h
      have := ih (nueva ++ [hijo]) r3 out (by simp; omega) hrest
      rw [this]
      simp
      omega
    · rw [if_neg hlen] at h
      cases h
      simp
      omega

/-- `_seleccion_y_reproduccion` restores the population size. -/
theorem seleccion_y_reproduccion_length (pobl : List Individuo) (r : Rng)
    (out : List Individuo × Rng) (h : seleccion_y_reproduccion pobl r = .ok out) :
    out.1.length = pobl.length := by
  unfold seleccion_y_reproduccion at h
  have hs : (sortDesc pobl).length = pobl.length := sortDesc_length pobl
  have htake : ((sortDesc pobl).take 5).length = min 5 pobl.length := by
    rw [List.length_take, hs]
  have := reproduccionLoop_length (sortDesc pobl) pobl.length ((sortDesc pobl).take 5) r out
    (by rw [htake]; omega) h
  rw [this, hs, htake]
  omega

/-- The mutation pass preserves the population size. -/
theorem mutacionLoop_length (c : Cfg) (t : ℚ) :
    ∀ (l : List Individuo) (r : Rng) (out : List Individuo × Rng),
      mutacionLoop c t l r = .ok out → out.1.length = l.length := by
  intro l
  induction l with
  | nil =>
    intro r out h
    unfold mutacionLoop at h
    cases h
    rfl
  | cons ind rest ih =>
    intro r out h
    unfold mutacionLoop at h
    rw [show ∀ (x : Except String (Individuo × Rng)) f, x.bind f = x >>= f from fun _ _ => rfl] at h
    obtain ⟨⟨ind', r2⟩, hbr, h2⟩ := except_bind_ok _ _ _ h
    rw [show ∀ (x : Except String (List Individuo × Rng)) f, x.bind f = x >>= f from
      fun _ _ => rfl] at h2
    obtain ⟨⟨rest', r3⟩, hrest, h3⟩ := except_bind_ok _ _ _ h2
    have hout : out = (ind' :: rest', r3) := by
      cases h3
      rfl
    rw [hout]
    have hlen := ih r2 (rest', r3) (by simpa using hrest)
    simp [hlen]

/-- Evaluation preserves the population size. -/
theorem evaluar_poblacion_length (c : Cfg) (e j : Pt) (obs : List Obstaculo)
    (pobl : List Individuo) :
    (evaluar_poblacion c e j obs pobl).length = pobl.length := by
  unfold evaluar_poblacion
  simp

/-- Lazy initialization produces exactly the configured number of individuals. -/
theorem inicializar_length (c : Cfg) (e j : Pt) (r : Rng) (tam : ℕ) :
    (inicializar_poblacion_genetica c e j r tam).1.length = tam := by
  unfold inicializar_poblacion_genetica
  have main : ∀ (l : List ℕ) (st : List Individuo × Rng),
      ((l.foldl
        (fun st _ => individuoNuevo c (pos_a_grid c e.x e.y) (pos_a_grid c j.x j.y) st)
        st).1).length = st.1.length + l.length := by
    intro l
    induction l with
    | nil => intro st; simp
    | cons a l ih =>
      intro st
      rw [List.foldl_cons, ih]
      unfold individuoNuevo
      simp
      omega
  simpa using main (List.range tam) ([], r)

/-- A successful generation preserves the population size. -/
theorem generacion_length (c : Cfg) (e j : Pt) (obs : List Obstaculo)
    (pr out : List Individuo × Rng) (h : generacion c e j obs pr = .ok out) :
    out.1.length = pr.1.length := by
  unfold generacion at h
  obtain ⟨⟨p1, r1⟩, hsel, h2⟩ := except_bind_ok _ _ _ h
  obtain ⟨⟨p2, r2⟩, hmut, h3⟩ := except_bind_ok _ _ _ h2
  have hout : out = (p2, r2) := by simpa [pure, Except.pure] using h3.symm
  rw [hout]
  have h1 := seleccion_y_reproduccion_length _ _ _ hsel
  have h2' := mutacionLoop_length c _ _ _ _ hmut
  simp only [h2', h1]
  rw [evaluar_poblacion_length]

/-- C8: the genetic population is initialized lazily with 20 individuals
(`inicializar`), each selection-and-reproduction generation restores the
population to its previous size (elitism + offspring), and consequently a
successful genetic call started from an uninitialized or size-20 population
ends with a size-20 population, for any generation budget. -/
theorem C8_tamano_poblacion :
    (∀ (c : Cfg) (e j : Pt) (r : Rng),
      (inicializar_poblacion_genetica c e j r).1.length = 20) ∧
    (∀ (pobl : List Individuo) (r : Rng) (out : List Individuo × Rng),
      seleccion_y_reproduccion pobl r = .ok out → out.1.length = pobl.length) ∧
    (∀ (c : Cfg) (st : EngState) (e j : Pt) (obs : List Obstaculo) (r : Rng)
      (gens : ℕ) (out : ℕ × EngState × Rng),
      (st.poblacion_rutas = [] ∨ st.poblacion_rutas.length = 20) →
      algoritmo_genetico c st e j obs r gens = .ok out →
      out.2.1.poblacion_rutas.length = 20) := by
  refine ⟨fun c e j r => inicializar_length c e j r 20, seleccion_y_reproduccion_length, ?_⟩
  intro c st e j obs r gens out hst h
  have hfold : ∀ (l : List ℕ) (p : List Individuo × Rng) (q : List Individuo × Rng),
      (l.foldlM (fun pr _ => generacion c e j obs pr) p) = .ok q →
      q.1.length = p.1.length := by
    intro l
    induction l with
    | nil =>
      intro p q hh
      simp only [List.foldlM, pure, Except.pure, Except.ok.injEq] at hh
      rw [← hh]
    | cons a l ih =>
      intro p q hh
      rw [List.foldlM_cons] at hh
      obtain ⟨m, hm, hrest⟩ := except_bind_ok _ _ _ hh
      rw [ih m q hrest, generacion_length c e j obs p m hm]
  unfold algoritmo_genetico at h
  rw [show ∀ (x : Except String (List Individuo × Rng))
      (f : _ → Except String (ℕ × EngState × Rng)), x.bind f = x >>= f from fun _ _ => rfl] at h
  by_cases he : st.poblacion_rutas.isEmpty
  · rw [if_pos he] at h
    obtain ⟨⟨pobl, rfin⟩, hf, hbody⟩ := except_bind_ok _ _ _ h
    have h20 : pobl.length = 20 := by
      have := hfold (List.range gens) _ _ hf
      rw [this, inicializar_length c e j r 20]
    simp only at hbody
    split at hbody <;>
      · simp only [Except.ok.injEq] at hbody
        rw [← hbody]
        simpa using h20
  · rw [if_neg he] at h
    have h20' : st.poblacion_rutas.length = 20 := by
      rcases hst with h0 | h0
      · rw [h0] at he
        simp at he
      · exact h0
    obtain ⟨⟨pobl, rfin⟩, hf, hbody⟩ := except_bind_ok _ _ _ h
    have h20 : pobl.length = 20 := by
      have := hfold (List.range gens) _ _ hf
      rw [this]
      simpa using h20'
    simp only at hbody
    split at hbody <;>
      · simp only [Except.ok.injEq] at hbody
        rw [← hbody]
        simpa using h20

/-- `max` of a replicated population is its element (both branches of the
fold's comparison return the same value). -/
theorem maxByFitness_replicate (n : ℕ) (x : Individuo) :
    maxByFitness (List.replicate (n + 1) x) = x := by
  have key : ∀ m, List.foldl
      (fun best y => if Fit.lt best.fitness y.fitness then y else best) x
      (List.replicate m x) = x := by
    intro m
    induction m with
    | zero => rfl
    | succ m ih =>
      rw [List.replicate_succ, List.foldl_cons, ite_self]
      exact ih
  rw [List.replicate_succ]
  exact key n

/-- Closed witness for C8: a concrete successful genetic call (size-20
population of empty routes, zero generations) whose final population still
has 20 individuals. -/
theorem C8_tamano_poblacion_witness :
    ∃ out : ℕ × EngState × Rng,
      algoritmo_genetico cfg300 ⟨[], List.replicate 20 ⟨[], ⟨0, 0⟩⟩⟩ pOrigen pOrigen [] rng0 0 =
        .ok out ∧ out.2.1.poblacion_rutas.length = 20 := by
  have hok : algoritmo_genetico cfg300 ⟨[], List.replicate 20 ⟨[], ⟨0, 0⟩⟩⟩ pOrigen pOrigen [] rng0 0 =
      .ok (8, ⟨[], List.replicate 20 ⟨[], ⟨0, 0⟩⟩⟩, rng0) := by
    unfold algoritmo_genetico
    rw [if_neg (by simp)]
    rw [show List.range 0 = [] from rfl]
    simp only [List.foldlM]
    rw [show ∀ (x : List Individuo × Rng)
        (f : _ → Except String (ℕ × EngState × Rng)),
        (pure x : Except String (List Individuo × Rng)).bind f = f x from fun _ _ => rfl]
    simp only [maxByFitness_replicate 19]
    rw [if_neg (by decide)]
  exact ⟨(8, ⟨[], List.replicate 20 ⟨[], ⟨0, 0⟩⟩⟩, rng0), hok,
    C8_tamano_poblacion.2.2 cfg300 _ pOrigen pOrigen [] rng0 0 _ (Or.inr (by simp)) hok⟩

/-! ### C1 -/

/-- The exact comparison is reflexive. -/
theorem Fit_le_self (f : Fit) : Fit.le f f = true := by
  unfold Fit.le sqrtAddLe
  rw [if_pos (by simp)]
  rw [if_pos (by simp)]

/-- Hence the strict comparison is irreflexive. -/
theorem Fit_lt_self (f : Fit) : Fit.lt f f = false := by
  unfold Fit.lt
  rw [Fit_le_self]
  rfl

/-- Once `done` is set, a walk step is the identity. -/
theorem rutaPaso_done (c : Cfg) (goal : Cell) (st : (List Cell × Cell × Bool) × Rng)
    (h : st.1.2.2 = true) : rutaPaso c goal st = st := by
  unfold rutaPaso
  rw [if_pos h]

/-- Standing on the goal, a walk step only sets `done`. -/
theorem rutaPaso_en_meta (c : Cfg) (goal : Cell) (ruta : List Cell) (r : Rng) :
    rutaPaso c goal ((ruta, goal, false), r) = ((ruta, goal, true), r) := by
  unfold rutaPaso
  simp

/-- A fold of walk steps over a `done` state is the identity. -/
theorem foldl_rutaPaso_done (c : Cfg) (goal : Cell) :
    ∀ (l : List ℕ) (st : (List Cell × Cell × Bool) × Rng), st.1.2.2 = true →
      (l.foldl (fun st _ => rutaPaso c goal st) st) = st := by
  intro l
  induction l with
  | nil => intro st _; rfl
  | cons a l ih =>
    intro st h
    rw [List.foldl_cons, rutaPaso_done c goal st h]
    exact ih st h

/-- A biased random walk from a cell to itself stops immediately: the route
is the single start cell and no randomness is drawn. -/
theorem generar_ruta_mismo (c : Cfg) (s : Cell) (r : Rng) (m : ℕ) :
    generar_ruta_aleatoria c s s r m = ([s], r) := by
  unfold generar_ruta_aleatoria
  cases m with
  | zero => rfl
  | succ m =>
    rw [List.range_succ_eq_map, List.foldl_cons, rutaPaso_en_meta c s [s] r, List.foldl_map,
      foldl_rutaPaso_done c s _ _ rfl]

/-- Population initialization with coincident pursuer and target yields 20
copies of the single-cell route, drawing no randomness. -/
theorem inicializar_mismo (c : Cfg) (e : Pt) (r : Rng) (tam : ℕ) :
    inicializar_poblacion_genetica c e e r tam =
      (List.replicate tam ⟨[pos_a_grid c e.x e.y], ⟨0, 0⟩⟩, r) := by
  unfold inicializar_poblacion_genetica
  have hpaso : ∀ (acc : List Individuo) (r0 : Rng),
      individuoNuevo c (pos_a_grid c e.x e.y) (pos_a_grid c e.x e.y) (acc, r0) =
        (acc ++ [⟨[pos_a_grid c e.x e.y], ⟨0, 0⟩⟩], r0) := by
    intro acc r0
    unfold individuoNuevo
    rw [generar_ruta_mismo]
  have main : ∀ (l : List ℕ) (acc : List Individuo),
      (l.foldl
        (fun st _ => individuoNuevo c (pos_a_grid c e.x e.y) (pos_a_grid c e.x e.y) st)
        (acc, r)) =
      (acc ++ List.replicate l.length ⟨[pos_a_grid c e.x e.y], ⟨0, 0⟩⟩, r) := by
    intro l
    induction l with
    | nil => intro acc; simp
    | cons a l ih =>
      intro acc
      rw [List.foldl_cons, hpaso, ih]
      simp [List.replicate_succ]
  simpa using main (List.range tam) []

/-- `eraseIdx` on a replicated list. -/
theorem eraseIdx_replicate {α : Type} (x : α) :
    ∀ (k j : ℕ), j < k → (List.replicate k x).eraseIdx j = List.replicate (k - 1) x := by
  intro k
  induction k with
  | zero => intro j h; omega
  | succ k ih =>
    intro j hj
    cases j with
    | zero => simp [List.replicate_succ]
    | succ j =>
      rw [List.replicate_succ, List.eraseIdx_cons_succ, ih j (by omega)]
      cases k with
      | zero => omega
      | succ k => simp [List.replicate_succ]

/-- Sampling from a uniform population returns copies of its element and
advances the stream cursor once per draw. -/
theorem sampleAux_replicate (d x : Individuo) :
    ∀ (cnt k : ℕ) (r : Rng),
      sampleAux d cnt (List.replicate k x) r =
        (List.replicate (min cnt k) x, ⟨r.stream, r.idx + min cnt k⟩) := by
  intro cnt
  induction cnt with
  | zero => intro k r; simp [sampleAux]
  | succ cnt ih =>
    intro k r
    cases k with
    | zero => simp [sampleAux]
    | succ k =>
      rw [List.replicate_succ]
      unfold sampleAux
      rw [← List.replicate_succ]
      have hj : (r.stream r.idx) % (k + 1) < k + 1 := Nat.mod_lt _ (by omega)
      simp only [Rng.next, List.length_replicate, getD_replicate, if_pos hj,
        eraseIdx_replicate x (k + 1) _ hj, Nat.add_sub_cancel, ih]
      have hmin : min cnt k + 1 = min (cnt + 1) (k + 1) := by omega
      rw [← List.replicate_succ, hmin]
      have hidx : r.idx + 1 + min cnt k = r.idx + min (cnt + 1) (k + 1) := by omega
      rw [hidx]

/-- A tournament over a uniform 20-individual population returns the common
individual and consumes exactly three draws. -/
theorem torneo_replicate20 (x : Individuo) (r : Rng) :
    seleccion_torneo (List.replicate 20 x) r = (x, ⟨r.stream, r.idx + 3⟩) := by
  unfold seleccion_torneo sample
  rw [List.length_replicate]
  rw [show min 3 20 = 3 from rfl]
  rw [sampleAux_replicate]
  rw [show min 3 20 = 3 from rfl]
  have h3 : maxByFitness (List.replicate 3 x) = x := maxByFitness_replicate 2 x
  exact congrArg (fun y => (y, ({ stream := r.stream, idx := r.idx + 3 } : Rng))) h3

/-- Crossover of two single-cell routes: the cut range `randint(1, 0)` is
empty and `ValueError` is raised. -/
theorem cruce_longitud_uno (x y : Individuo) (r : Rng)
    (hx : x.path.length = 1) (hy : y.path.length = 1) :
    cruce x y r = .error emptyRangeMsg := by
  unfold cruce
  have hxe : x.path.isEmpty = false := by
    cases hp : x.path with
    | nil => rw [hp] at hx; simp at hx
    | cons a l => rfl
  have hye : y.path.isEmpty = false := by
    cases hp : y.path with
    | nil => rw [hp] at hy; simp at hy
    | cons a l => rfl
  rw [if_neg (by simp [hxe, hye])]
  rw [hx, hy]
  unfold randint
  rw [if_pos (by norm_num)]
  rfl

/-- Inserting the common element into a uniform descending list appends it. -/
theorem insertDesc_replicate (x : Individuo) :
    ∀ m, insertDesc x (List.replicate m x) = List.replicate (m + 1) x := by
  intro m
  induction m with
  | zero => rfl
  | succ m ih =>
    rw [List.replicate_succ]
    unfold insertDesc
    rw [Fit_lt_self]
    simp only [Bool.false_eq_true, if_false, ih]
    rfl

/-- Sorting a uniform population is the identity. -/
theorem sortDesc_replicate (n : ℕ) (x : Individuo) :
    sortDesc (List.replicate n x) = List.replicate n x := by
  unfold sortDesc
  have aux : ∀ (k m : ℕ),
      ((List.replicate k x).foldl (fun acc y => insertDesc y acc) (List.replicate m x)) =
        List.replicate (m + k) x := by
    intro k
    induction k with
    | zero => intro m; simp
    | succ k ih =>
      intro m
      rw [List.replicate_succ, List.foldl_cons, insertDesc_replicate x m, ih (m + 1)]
      congr 1
      omega
  simpa using aux n 0

/-- Selection-and-reproduction over a uniform 20-individual population of
single-cell routes raises the crossover `ValueError` on its first pass. -/
theorem seleccion_longitud_uno (x : Individuo) (r : Rng) (hx : x.path.length = 1) :
    seleccion_y_reproduccion (List.replicate 20 x) r = .error emptyRangeMsg := by
  unfold seleccion_y_reproduccion
  rw [sortDesc_replicate 20 x, List.length_replicate]
  simp only [List.take_replicate]
  rw [show min 5 20 = 5 from rfl]
  nth_rewrite 2 [show (20 : ℕ) = 19 + 1 from rfl]
  unfold reproduccionLoop
  rw [if_pos (by simp)]
  simp only [torneo_replicate20]
  rw [cruce_longitud_uno x x _ hx hx]
  rfl

/-- Evaluating a uniform population rescores the shared individual. -/
theorem evaluar_replicate (c : Cfg) (e j : Pt) (obs : List Obstaculo)
    (n : ℕ) (ind : Individuo) :
    evaluar_poblacion c e j obs (List.replicate n ind) =
      List.replicate n
        { ind with fitness := fitness_ruta c (crear_grid_mejorado c obs) j ind.path } := by
  unfold evaluar_poblacion
  simp

/-- The first generation over a uniform population of single-cell routes
raises the crossover `ValueError`. -/
theorem generacion_longitud_uno (c : Cfg) (e j : Pt) (obs : List Obstaculo)
    (ind : Individuo) (r : Rng) (hx : ind.path.length = 1) :
    generacion c e j obs (List.replicate 20 ind, r) = .error emptyRangeMsg := by
  unfold generacion
  show (seleccion_y_reproduccion
      (evaluar_poblacion c e j obs (List.replicate 20 ind, r).1) (List.replicate 20 ind, r).2) >>=
      _ = _
  rw [show ((List.replicate 20 ind, r).1) = List.replicate 20 ind from rfl,
    show ((List.replicate 20 ind, r).2) = r from rfl]
  rw [evaluar_replicate]
  rw [seleccion_longitud_uno _ _ (by simpa using hx)]
  rfl

/-- C1 (code bug): with mode "genetico" and pursuer and target in the same
cell, every initial route is the single-cell route, tournament parents both
have length-1 routes, and `_cruce` raises `ValueError` from
`random.randint(1, 0)` — for every random stream.  The claim's "never raises
an exception" is contradicted by the code at this input. -/
theorem C1_cruce_valueerror (r : Rng) :
    esError (calcular_mejor_accion cfg300 st0 pOrigen pOrigen [] modoGenetico r) = true := by
  unfold calcular_mejor_accion
  rw [if_neg (by decide), if_neg (by decide), if_neg (by decide), if_pos rfl]
  unfold algoritmo_genetico
  rw [if_pos (by decide)]
  rw [inicializar_mismo cfg300 pOrigen r 20]
  rw [show List.range 5 = 0 :: [1, 2, 3, 4] from rfl]
  simp only []
  rw [List.foldlM_cons]
  rw [generacion_longitud_uno cfg300 pOrigen pOrigen []
    ⟨[pos_a_grid cfg300 pOrigen.x pOrigen.y], ⟨0, 0⟩⟩ r rfl]
  rfl

/-! ### C3: validity of the A* path

The returned path is proved 8-connected, to start at `start`, to end at
`goal`, and to certify reachability of `goal` through free cells.  The proof
carries an invariant through the search loop: the predecessor map is a forest
rooted at `start` along which g-costs strictly decrease and edges are
8-adjacent moves into free cells. -/

/-- 8-connectivity: the two cells differ by at most 1 in each axis. -/
def adj8 (a b : Cell) : Prop := (a.1 - b.1).natAbs ≤ 1 ∧ (a.2 - b.2).natAbs ≤ 1

instance (a b : Cell) : Decidable (adj8 a b) := by unfold adj8; infer_instance

/-- One legal search step: move to an 8-adjacent cell that is inside the grid
and free. -/
def pasoLibre (c : Cfg) (grid : Grid) (a b : Cell) : Prop :=
  adj8 a b ∧ gridFree c grid b = true

/-- `g` is reachable from `s` by legal search steps. -/
def Alcanzable (c : Cfg) (grid : Grid) (s g : Cell) : Prop :=
  Relation.ReflTransGen (pasoLibre c grid) s g

/-- The g-cost the loop knows for a cell (`0` when absent, as in the
source's `cost_so_far.get`). -/
def costOf (st : AStarSt) (k : Cell) : ℚ := (dictGet st.cost_so_far k).getD 0

/-- The A* loop invariant: `came_from` and `cost_so_far` have the same keys,
`start` is bound to no predecessor and cost 0, costs are nonnegative, only
`start` has no predecessor, every other binding records an 8-adjacent
predecessor with strictly smaller cost, every frontier entry is keyed, and
every keyed cell is reachable from `start` through free cells. -/
structure InvA (c : Cfg) (grid : Grid) (start : Cell) (st : AStarSt) : Prop where
  llaves : ∀ k, (dictGet st.came_from k).isSome ↔ (dictGet st.cost_so_far k).isSome
  inicio_cf : dictGet st.came_from start = some none
  inicio_costo : dictGet st.cost_so_far start = some 0
  no_neg : ∀ k q, dictGet st.cost_so_far k = some q → 0 ≤ q
  sin_padre : ∀ n, dictGet st.came_from n = some none → n = start
  padre : ∀ n p, dictGet st.came_from n = some (some p) →
    adj8 p n ∧ (dictGet st.came_from p).isSome ∧ costOf st p < costOf st n
  frontera : ∀ e ∈ st.heap, (dictGet st.came_from e.2).isSome
  alcanza : ∀ n, (dictGet st.came_from n).isSome → Alcanzable c grid start n

theorem dictGet_nil {α : Type} (k : Cell) : dictGet ([] : List (Cell × α)) k = none := rfl

theorem dictGet_cons {α : Type} (x : Cell × α) (l : List (Cell × α)) (k : Cell) :
    dictGet (x :: l) k = if x.1 = k then some x.2 else dictGet l k := by
  unfold dictGet
  by_cases h : x.1 = k
  · rw [if_pos h, List.find?_cons_of_pos _ (by simp [h])]
    rfl
  · rw [if_neg h, List.find?_cons_of_neg _ (by simp [h])]

theorem dictGet_insert {α : Type} (l : List (Cell × α)) (k : Cell) (v : α) (k' : Cell) :
    dictGet (dictInsert l k v) k' = if k' = k then some v else dictGet l k' := by
  induction l with
  | nil =>
    by_cases h : k' = k
    · subst h; simp [dictInsert, dictGet_cons]
    · simp [dictInsert, dictGet_cons, h, Ne.symm h, dictGet_nil]
  | cons x rest ih =>
    by_cases hx : x.1 = k
    · by_cases h : k' = k
      · subst h; simp [dictInsert, hx, dictGet_cons]
      · have hxk : x.1 ≠ k' := by rw [hx]; exact Ne.symm h
        simp [dictInsert, dictGet_cons, hx, h, Ne.symm h, hxk]
    · by_cases h : k' = k
      · subst h
        simp [dictInsert, dictGet_cons, hx, ih]
      · simp [dictInsert, dictGet_cons, hx, h, ih]

theorem dictGet_mem {α : Type} {l : List (Cell × α)} {k : Cell} {v : α}
    (h : dictGet l k = some v) : (k, v) ∈ l := by
  unfold dictGet at h
  rcases hf : l.find? fun p => decide (p.1 = k) with _ | p
  · rw [hf] at h; cases h
  · rw [hf] at h
    have hmem := List.mem_of_find?_eq_some hf
    have hp : p.1 = k := by have h2 := List.find?_some hf; simpa using h2
    have hv : p.2 = v := by simpa using h
    have : p = (k, v) := by
      cases p with
      | mk a b => simp only [Prod.mk.injEq]; exact ⟨hp, hv⟩
    exact this ▸ hmem

theorem mem_heapPush (l : List Entry) (e x : Entry) :
    x ∈ heapPush l e ↔ x ∈ l ∨ x = e := by
  induction l with
  | nil => simp [heapPush]
  | cons y ys ih =>
    unfold heapPush
    by_cases h : Entry.le e y = true
    · rw [if_pos h]
      simp only [List.mem_cons, ih]
      tauto
    · rw [if_neg h]
      simp only [List.mem_cons, ih]
      tauto

theorem costoMovimiento_pos (cf : List (Cell × Option Cell)) (cur : Cell)
    (d : ℤ × ℤ) : 0 < costoMovimiento cf cur d := by
  unfold costoMovimiento
  rcases dictGet cf cur with _ | (_ | prev) <;> simp only [] <;> split_ifs <;> norm_num

/-- The relax-and-push update preserves the invariant, provided the relaxed
neighbour is adjacent, free, distinct from the current cell, and its new cost
improves on any existing one while exceeding the current cell's cost. -/
theorem update_inv (c : Cfg) (grid : Grid) (start cur nb : Cell) (st : AStarSt)
    (hinv : InvA c grid start st)
    (hcur : (dictGet st.came_from cur).isSome)
    (hadj : adj8 cur nb)
    (hfree : gridFree c grid nb = true)
    (hne : nb ≠ cur)
    (nc : ℚ) (pr : Prio)
    (hgt : costOf st cur < nc)
    (hmej : dictGet st.cost_so_far nb = none ∨
      ∃ cn, dictGet st.cost_so_far nb = some cn ∧ nc < cn)
    (st' : AStarSt)
    (hH : st'.heap = heapPush st.heap (pr, nb))
    (hC : st'.came_from = dictInsert st.came_from nb (some cur))
    (hS : st'.cost_so_far = dictInsert st.cost_so_far nb nc) :
    InvA c grid start st' := by
  have hcur_cost : (dictGet st.cost_so_far cur).isSome := (hinv.llaves cur).mp hcur
  have hc0 : 0 ≤ costOf st cur := by
    rcases Option.isSome_iff_exists.mp hcur_cost with ⟨q, hq⟩
    unfold costOf
    rw [hq]
    exact hinv.no_neg cur q hq
  have hnc0 : 0 < nc := lt_of_le_of_lt hc0 hgt
  have hnb_start : nb ≠ start := by
    intro he
    subst he
    rcases hmej with hmn | ⟨cn, hcn, hlt⟩
    · rw [hinv.inicio_costo] at hmn; cases hmn
    · rw [hinv.inicio_costo] at hcn
      injection hcn with h2
      rw [← h2] at hlt
      exact absurd hlt (not_lt.mpr (le_of_lt hnc0))
  have hold_nb : ∀ q, dictGet st.cost_so_far nb = some q → nc < q := by
    intro q hq
    rcases hmej with hmn | ⟨cn, hcn, hlt⟩
    · rw [hmn] at hq; cases hq
    · rw [hcn] at hq; injection hq with h2; rw [← h2]; exact hlt
  have hco : ∀ k, costOf st' k = if k = nb then nc else costOf st k := by
    intro k
    unfold costOf
    rw [hS, dictGet_insert]
    by_cases h : k = nb <;> simp [h]
  refine ⟨?_, ?_, ?_, ?_, ?_, ?_, ?_, ?_⟩
  · intro k
    rw [hC, hS, dictGet_insert, dictGet_insert]
    by_cases h : k = nb <;> simp [h, hinv.llaves k]
  · rw [hC, dictGet_insert, if_neg (fun hh => hnb_start hh.symm)]
    exact hinv.inicio_cf
  · rw [hS, dictGet_insert, if_neg (fun hh => hnb_start hh.symm)]
    exact hinv.inicio_costo
  · intro k q hq
    rw [hS, dictGet_insert] at hq
    by_cases h : k = nb
    · rw [if_pos h] at hq
      injection hq with h2
      rw [← h2]
      exact le_of_lt hnc0
    · rw [if_neg h] at hq
      exact hinv.no_neg k q hq
  · intro n hn
    rw [hC, dictGet_insert] at hn
    by_cases h : n = nb
    · rw [if_pos h] at hn
      injection hn with h2
      cases h2
    · rw [if_neg h] at hn
      exact hinv.sin_padre n hn
  · intro n p hp
    rw [hC, dictGet_insert] at hp
    by_cases h : n = nb
    · rw [if_pos h] at hp
      injection hp with h2
      injection h2 with h3
      subst h
      rw [← h3]
      refine ⟨hadj, ?_, ?_⟩
      · rw [hC, dictGet_insert, if_neg (fun hh => hne hh.symm)]
        exact hcur
      · rw [hco, hco, if_pos rfl, if_neg (fun hh => hne hh.symm)]
        exact hgt
    · rw [if_neg h] at hp
      obtain ⟨ha, hk, hcost⟩ := hinv.padre n p hp
      refine ⟨ha, ?_, ?_⟩
      · rw [hC, dictGet_insert]
        by_cases hpn : p = nb
        · rw [if_pos hpn]; rfl
        · rw [if_neg hpn]; exact hk
      · rw [hco, hco, if_neg h]
        by_cases hpn : p = nb
        · rw [if_pos hpn]
          subst hpn
          have hpk : (dictGet st.cost_so_far p).isSome := (hinv.llaves p).mp hk
          rcases Option.isSome_iff_exists.mp hpk with ⟨q, hq⟩
          have h1 : nc < q := hold_nb q hq
          have h2 : costOf st p = q := by unfold costOf; rw [hq]; rfl
          rw [← h2] at h1
          exact lt_trans h1 hcost
        · rw [if_neg hpn]
          exact hcost
  · intro e he
    rw [hH, mem_heapPush] at he
    rcases he with he | he
    · have := hinv.frontera e he
      rw [hC, dictGet_insert]
      by_cases h : e.2 = nb
      · rw [if_pos h]; rfl
      · rw [if_neg h]; exact this
    · subst he
      rw [hC]
      rw [show ((pr, nb) : Entry).2 = nb from rfl, dictGet_insert, if_pos rfl]
      rfl
  · intro n hn
    rw [hC, dictGet_insert] at hn
    by_cases h : n = nb
    · subst h
      exact Relation.ReflTransGen.tail (hinv.alcanza cur hcur) ⟨hadj, hfree⟩
    · rw [if_neg h] at hn
      exact hinv.alcanza n hn

/-- `expandVecino` preserves the invariant, and keeps the current cell keyed. -/
theorem expandVecino_inv (c : Cfg) (grid : Grid) (goal start cur : Cell)
    (st : AStarSt) (hinv : InvA c grid start st)
    (hcur : (dictGet st.came_from cur).isSome)
    (d : ℤ × ℤ) (hd : d ∈ dirs8) :
    InvA c grid start (expandVecino c grid goal cur st d) ∧
    (dictGet (expandVecino c grid goal cur st d).came_from cur).isSome := by
  have hdno0 : ¬(d.1 = 0 ∧ d.2 = 0) := by
    have h := (by decide : ∀ x ∈ dirs8, ¬(x.1 = 0 ∧ x.2 = 0))
    exact h d hd
  have hdabs : d.1.natAbs ≤ 1 ∧ d.2.natAbs ≤ 1 := by
    have h := (by decide : ∀ x ∈ dirs8, x.1.natAbs ≤ 1 ∧ x.2.natAbs ≤ 1)
    exact h d hd
  have hne : ((cur.1 + d.1, cur.2 + d.2) : Cell) ≠ cur := by
    intro he
    have h1 : cur.1 + d.1 = cur.1 := congrArg Prod.fst he
    have h2 : cur.2 + d.2 = cur.2 := congrArg Prod.snd he
    exact hdno0 ⟨by omega, by omega⟩
  have hadj : adj8 cur (cur.1 + d.1, cur.2 + d.2) := by
    constructor
    · show (cur.1 - (cur.1 + d.1)).natAbs ≤ 1
      have h : cur.1 - (cur.1 + d.1) = -d.1 := by ring
      rw [h, Int.natAbs_neg]
      exact hdabs.1
    · show (cur.2 - (cur.2 + d.2)).natAbs ≤ 1
      have h : cur.2 - (cur.2 + d.2) = -d.2 := by ring
      rw [h, Int.natAbs_neg]
      exact hdabs.2
  unfold expandVecino
  simp only []
  by_cases hfree : gridFree c grid (cur.1 + d.1, cur.2 + d.2) = true
  case neg => rw [if_neg hfree]; exact ⟨hinv, hcur⟩
  rw [if_pos hfree]
  have hgt : costOf st cur <
      (dictGet st.cost_so_far cur).getD 0 + costoMovimiento st.came_from cur d := by
    unfold costOf
    exact lt_add_of_pos_right _ (costoMovimiento_pos _ _ _)
  rcases hmc : dictGet st.cost_so_far (cur.1 + d.1, cur.2 + d.2) with _ | cn
  · rw [if_pos rfl]
    refine ⟨update_inv c grid start cur (cur.1 + d.1, cur.2 + d.2) st hinv hcur hadj
      hfree hne _ _ hgt (Or.inl hmc) _ rfl rfl rfl, ?_⟩
    show (dictGet (dictInsert st.came_from (cur.1 + d.1, cur.2 + d.2) (some cur))
      cur).isSome = true
    rw [dictGet_insert, if_neg (fun hh => hne hh.symm)]
    exact hcur
  · by_cases hlt : (dictGet st.cost_so_far cur).getD 0 +
        costoMovimiento st.came_from cur d < cn
    · rw [if_pos (decide_eq_true hlt)]
      refine ⟨update_inv c grid start cur (cur.1 + d.1, cur.2 + d.2) st hinv hcur hadj
        hfree hne _ _ hgt (Or.inr ⟨cn, hmc, hlt⟩) _ rfl rfl rfl, ?_⟩
      show (dictGet (dictInsert st.came_from (cur.1 + d.1, cur.2 + d.2) (some cur))
        cur).isSome = true
      rw [dictGet_insert, if_neg (fun hh => hne hh.symm)]
      exact hcur
    · rw [if_neg (by simpa using hlt)]
      exact ⟨hinv, hcur⟩

/-- Folding `expandVecino` over any sublist of the 8 directions preserves the
invariant. -/
theorem foldl_expand_inv (c : Cfg) (grid : Grid) (goal start cur : Cell) :
    ∀ l : List (ℤ × ℤ), (∀ x ∈ l, x ∈ dirs8) → ∀ st : AStarSt,
      InvA c grid start st → (dictGet st.came_from cur).isSome →
      InvA c grid start (l.foldl (expandVecino c grid goal cur) st) := by
  intro l
  induction l with
  | nil => intro _ st hinv _; exact hinv
  | cons d rest ih =>
    intro hsub st hinv hcur
    obtain ⟨h1, h2⟩ := expandVecino_inv c grid goal start cur st hinv hcur d
      (hsub d (by simp))
    exact ih (fun x hx => hsub x (by simp [hx])) _ h1 h2

/-- The search loop preserves the invariant: whatever it returns is the
`came_from` map of some invariant-satisfying state. -/
theorem astarLoop_inv (c : Cfg) (grid : Grid) (goal start : Cell) :
    ∀ (fuel : ℕ) (st : AStarSt), InvA c grid start st →
      ∃ st' : AStarSt, astarLoop c grid goal fuel st = st'.came_from ∧
        InvA c grid start st' := by
  intro fuel
  induction fuel with
  | zero => intro st hinv; exact ⟨st, rfl, hinv⟩
  | succ fuel ih =>
    intro st hinv
    rcases hh : st.heap with _ | ⟨e, rest⟩
    · refine ⟨st, ?_, hinv⟩
      unfold astarLoop
      rw [hh]
    · by_cases hg : e.2 = goal
      · refine ⟨st, ?_, hinv⟩
        unfold astarLoop
        rw [hh]
        show (if e.2 = goal then st.came_from
          else astarLoop c grid goal fuel
            (dirs8.foldl (expandVecino c grid goal e.2) { st with heap := rest }))
          = st.came_from
        rw [if_pos hg]
      · have hcur : (dictGet st.came_from e.2).isSome :=
          hinv.frontera e (by rw [hh]; exact List.mem_cons_self e rest)
        have hrest : InvA c grid start { st with heap := rest } :=
          ⟨hinv.llaves, hinv.inicio_cf, hinv.inicio_costo, hinv.no_neg,
           hinv.sin_padre, hinv.padre,
           fun x hx => hinv.frontera x (by rw [hh]; exact List.mem_cons_of_mem e hx),
           hinv.alcanza⟩
        have hfold := foldl_expand_inv c grid goal start e.2 dirs8
          (fun x hx => hx) _ hrest hcur
        obtain ⟨st', heq, hinv'⟩ := ih _ hfold
        refine ⟨st', ?_, hinv'⟩
        unfold astarLoop
        rw [hh]
        show (if e.2 = goal then st.came_from
          else astarLoop c grid goal fuel
            (dirs8.foldl (expandVecino c grid goal e.2) { st with heap := rest }))
          = st'.came_from
        rw [if_neg hg]
        exact heq

/-- The initial state of the search satisfies the invariant. -/
theorem invA_inicial (c : Cfg) (grid : Grid) (s : Cell) :
    InvA c grid s ⟨[((0, 0), s)], [(s, none)], [(s, 0)]⟩ := by
  have hcf : ∀ k, dictGet [(s, (none : Option Cell))] k =
      if s = k then some none else none := by
    intro k
    rw [dictGet_cons]
    by_cases h : s = k <;> simp [h, dictGet_nil]
  have hcost : ∀ k, dictGet [(s, (0 : ℚ))] k = if s = k then some 0 else none := by
    intro k
    rw [dictGet_cons]
    by_cases h : s = k <;> simp [h, dictGet_nil]
  refine ⟨?_, ?_, ?_, ?_, ?_, ?_, ?_, ?_⟩
  · intro k
    rw [hcf k, hcost k]
    by_cases h : s = k <;> simp [h]
  · rw [hcf s, if_pos rfl]
  · rw [hcost s, if_pos rfl]
  · intro k q hq
    rw [hcost k] at hq
    by_cases h : s = k
    · rw [if_pos h] at hq
      injection hq with h2
      rw [← h2]
    · rw [if_neg h] at hq; cases hq
  · intro n hn
    rw [hcf n] at hn
    by_cases h : s = n
    · exact h.symm
    · rw [if_neg h] at hn; cases hn
  · intro n p hp
    rw [hcf n] at hp
    by_cases h : s = n
    · rw [if_pos h] at hp
      injection hp with h2
      cases h2
    · rw [if_neg h] at hp; cases hp
  · intro e he
    have he2 : e = (((0 : ℚ), (0 : ℕ)), s) := by simpa using he
    subst he2
    rw [show ((((0 : ℚ), (0 : ℕ)), s) : Entry).2 = s from rfl, hcf s, if_pos rfl]
    rfl
  · intro n hn
    rw [hcf n] at hn
    by_cases h : s = n
    · rw [← h]
      exact Relation.ReflTransGen.refl
    · rw [if_neg h] at hn; cases hn

theorem length_filter_mono {α : Type} (P Q : α → Bool) :
    ∀ l : List α, (∀ b ∈ l, P b = true → Q b = true) →
      (l.filter P).length ≤ (l.filter Q).length := by
  intro l
  induction l with
  | nil => intro _; simp
  | cons x xs ih =>
    intro h
    have ih' := ih (fun b hb => h b (List.mem_cons_of_mem x hb))
    cases hP : P x with
    | false =>
      cases hQ : Q x <;> simp [List.filter_cons, hP, hQ] <;> omega
    | true =>
      have hQ : Q x = true := h x (List.mem_cons_self x xs) hP
      simp [List.filter_cons, hP, hQ]
      omega

theorem length_filter_lt {α : Type} (P Q : α → Bool) (a : α)
    (hQ : Q a = true) (hP : P a = false) :
    ∀ l : List α, (∀ b ∈ l, P b = true → Q b = true) → a ∈ l →
      (l.filter P).length < (l.filter Q).length := by
  intro l
  induction l with
  | nil => intro _ ha; cases ha
  | cons x xs ih =>
    intro h ha
    rcases List.mem_cons.mp ha with rfl | hmem
    · have hmono := length_filter_mono P Q xs (fun b hb => h b (List.mem_cons_of_mem _ hb))
      simp [List.filter_cons, hP, hQ]
      omega
    · have ih' := ih (fun b hb => h b (List.mem_cons_of_mem x hb)) hmem
      cases hPx : P x with
      | false =>
        cases hQx : Q x <;> simp [List.filter_cons, hPx, hQx] <;> omega
      | true =>
        have hQx : Q x = true := h x (List.mem_cons_self x xs) hPx
        simp [List.filter_cons, hPx, hQx]
        omega

/-- Following predecessors from any keyed cell, with fuel exceeding the count
of strictly cheaper keyed cells, yields a list that starts at `start`,
extends the accumulator, and is a chain of 8-adjacent moves. -/
theorem reconstruct_spec (c : Cfg) (grid : Grid) (start : Cell) (stF : AStarSt)
    (hinv : InvA c grid start stF) :
    ∀ (fuel : ℕ) (n : Cell) (acc : List Cell),
      (dictGet stF.came_from n).isSome →
      (stF.came_from.filter fun pr => decide (costOf stF pr.1 < costOf stF n)).length
        < fuel →
      List.Chain' adj8 (n :: acc) →
      (reconstruct stF.came_from fuel n acc).head? = some start ∧
      (∃ l, reconstruct stF.came_from fuel n acc = l ++ n :: acc) ∧
      List.Chain' adj8 (reconstruct stF.came_from fuel n acc) := by
  intro fuel
  induction fuel with
  | zero => intro n acc _ hm _; omega
  | succ fuel ih =>
    intro n acc hn hm hch
    rcases hget : dictGet stF.came_from n with _ | o
    · rw [hget] at hn; cases hn
    rcases o with _ | p
    · have hstart : n = start := hinv.sin_padre n hget
      have hred : reconstruct stF.came_from (fuel + 1) n acc = n :: acc := by
        unfold reconstruct
        rw [hget]
      rw [hred]
      subst hstart
      exact ⟨rfl, ⟨[], rfl⟩, hch⟩
    · obtain ⟨hadj, hpk, hcost⟩ := hinv.padre n p hget
      have hred : reconstruct stF.came_from (fuel + 1) n acc
          = reconstruct stF.came_from fuel p (n :: acc) := by
        show (match dictGet stF.came_from n with
          | some (some prev) => reconstruct stF.came_from fuel prev (n :: acc)
          | _ => n :: acc) = reconstruct stF.came_from fuel p (n :: acc)
        rw [hget]
      rcases Option.isSome_iff_exists.mp hpk with ⟨w, hw⟩
      have hpmem : (p, w) ∈ stF.came_from := dictGet_mem hw
      have hdec :
          (stF.came_from.filter fun pr => decide (costOf stF pr.1 < costOf stF p)).length
          < (stF.came_from.filter fun pr =>
              decide (costOf stF pr.1 < costOf stF n)).length := by
        refine length_filter_lt _ _ (p, w) (decide_eq_true hcost)
          (decide_eq_false (lt_irrefl _)) stF.came_from ?_ hpmem
        intro b _ hb
        exact decide_eq_true (lt_trans (of_decide_eq_true hb) hcost)
      have hm' :
          (stF.came_from.filter fun pr =>
            decide (costOf stF pr.1 < costOf stF p)).length < fuel :=
        lt_of_lt_of_le hdec (Nat.lt_succ_iff.mp hm)
      have hch' : List.Chain' adj8 (p :: n :: acc) := List.chain'_cons.mpr ⟨hadj, hch⟩
      obtain ⟨hh, ⟨l, hl⟩, hc⟩ := ih p (n :: acc) hpk hm' hch'
      rw [hred]
      refine ⟨hh, ⟨l ++ [p], ?_⟩, hc⟩
      rw [hl, List.append_assoc]
      rfl

/-- C3: every non-empty path returned by `_a_star_con_heuristica_mejorada` is
8-connected (consecutive cells differ by at most 1 in each axis), its first
cell is the start cell and its last cell is the goal cell; moreover it can
only be non-empty when the goal is reachable from the start through free
cells, so an unreachable goal yields the empty path. -/
theorem C3_camino_valido (c : Cfg) (grid : Grid) (start goal : Cell)
    (h : a_star_con_heuristica_mejorada c grid start goal ≠ []) :
    (a_star_con_heuristica_mejorada c grid start goal).head? = some start ∧
    (a_star_con_heuristica_mejorada c grid start goal).getLast? = some goal ∧
    List.Chain' adj8 (a_star_con_heuristica_mejorada c grid start goal) ∧
    Alcanzable c grid start goal := by
  obtain ⟨stF, hcf, hinvF⟩ := astarLoop_inv c grid goal start (astarFuel c)
    ⟨[((0, 0), start)], [(start, none)], [(start, 0)]⟩ (invA_inicial c grid start)
  have hbody : a_star_con_heuristica_mejorada c grid start goal
      = match dictGet stF.came_from goal with
        | none => []
        | some _ => reconstruct stF.came_from stF.came_from.length goal [] := by
    unfold a_star_con_heuristica_mejorada
    simp only []
    rw [hcf]
  rcases hget : dictGet stF.came_from goal with _ | v
  · rw [hbody, hget] at h
    exact absurd rfl h
  · have hkey : (dictGet stF.came_from goal).isSome := by rw [hget]; rfl
    have hgmem : (goal, v) ∈ stF.came_from := dictGet_mem hget
    have hm : (stF.came_from.filter fun pr =>
        decide (costOf stF pr.1 < costOf stF goal)).length < stF.came_from.length := by
      have h1 := length_filter_lt
        (fun pr => decide (costOf stF pr.1 < costOf stF goal)) (fun _ => true)
        (goal, v) rfl (decide_eq_false (lt_irrefl _)) stF.came_from
        (fun b _ _ => rfl) hgmem
      simpa using h1
    obtain ⟨hh, ⟨l, hl⟩, hc⟩ := reconstruct_spec c grid start stF hinvF
      stF.came_from.length goal [] hkey hm (List.chain'_singleton goal)
    have hres : a_star_con_heuristica_mejorada c grid start goal
        = reconstruct stF.came_from stF.came_from.length goal [] := by
      rw [hbody, hget]
    rw [hres]
    refine ⟨hh, ?_, hc, hinvF.alcanza goal hkey⟩
    rw [hl]
    exact List.getLast?_concat l

/-- Witness for C3 at a concrete instance: start = goal = (0,0) on the empty
map returns the single-cell path `[(0,0)]`, which is non-empty, starts and
ends at the cell, is trivially 8-connected, and certifies reachability. -/
theorem C3_camino_valido_witness :
    a_star_con_heuristica_mejorada cfg300 [] (0, 0) (0, 0) ≠ [] ∧
    ((a_star_con_heuristica_mejorada cfg300 [] (0, 0) (0, 0)).head? = some (0, 0) ∧
     (a_star_con_heuristica_mejorada cfg300 [] (0, 0) (0, 0)).getLast? = some (0, 0) ∧
     List.Chain' adj8 (a_star_con_heuristica_mejorada cfg300 [] (0, 0) (0, 0)) ∧
     Alcanzable cfg300 [] (0, 0) (0, 0)) :=
  ⟨by rw [astar_mismo_inicio_meta]; simp,
   C3_camino_valido cfg300 [] (0, 0) (0, 0)
     (by rw [astar_mismo_inicio_meta]; simp)⟩

end SmartChase


